import Mathlib

/-!
Verification of the SXML/DDL reconciliation script (`main.py`).

The script reconciles a textual Oracle `CREATE TABLE` statement (the DDL)
with an embedded schema-XML ("SXML") snapshot: it diffs the two column
lists, synthesizes metadata items for columns missing from the SXML,
applies two narrow fixups (a NOT NULL marker on the `ID` column, and a
reset of identity-generator `START_WITH` values), reorders the SXML
column list to match the DDL, and reports residual discrepancies.

This file shallowly embeds the relevant functions of `main.py` over
`List Char` (Python `str`), modelling each specific regular expression
by a dedicated scanner with Python `re` semantics (leftmost match,
greedy/lazy as in the pattern, `re.sub` resuming after each match).
Library calls that `main.py` makes into `xml.etree.ElementTree` are
modelled by an explicit element-tree type `XNode` together with either
a concrete mini parser/serializer (used for concrete evaluations) or a
parser/serializer parameter (used for theorems that hold for every
parser, mirroring the fact that the script only ever observes the
library through `fromstring`/`tostring`/`find`/`findall`/`findtext`).
-/

namespace SxmlRec

abbrev Chars := List Char

/-- Python `\s` for the ASCII range (space, tab, newline, carriage return,
vertical tab, form feed). -/
def isWs (c : Char) : Bool :=
  c = ' ' || c = '\t' || c = '\n' || c = '\r' || c = '\x0b' || c = '\x0c'

/-- Python `str.isdigit` restricted to ASCII digits, as matched by `\d`. -/
def isDigitCh (c : Char) : Bool := '0' ≤ c && c ≤ '9'

/-- ASCII upper-casing of one character (Python `str.upper` on the ASCII
subset, the only case the script exercises). -/
def upChar (c : Char) : Char :=
  if 'a' ≤ c && c ≤ 'z' then Char.ofNat (c.toNat - 32) else c

/-- Python `str.upper` (ASCII). -/
def upper (s : Chars) : Chars := s.map upChar

/-- Python `str.lstrip()`. -/
def lstrip (s : Chars) : Chars := s.dropWhile isWs

/-- Python `str.rstrip()`. -/
def rstrip (s : Chars) : Chars := (s.reverse.dropWhile isWs).reverse

/-- Python `str.strip()`. -/
def strip (s : Chars) : Chars := rstrip (lstrip s)

/-- Python `str.rstrip(',')`: strip trailing commas. -/
def rstripComma (s : Chars) : Chars :=
  (s.reverse.dropWhile (fun c => c = ',')).reverse

/-- First index at which `pat` occurs in `s` (Python `str.find`, as an
`Option`); scans left to right. -/
def findSubAux : Chars → Chars → Nat → Option Nat
  | s, pat, i =>
    if pat.isPrefixOf s then some i
    else match s with
      | [] => none
      | _ :: rest => findSubAux rest pat (i + 1)

def findSub (s pat : Chars) : Option Nat := findSubAux s pat 0

/-- Python `pat in s` (substring containment). -/
def containsSub (s pat : Chars) : Bool := (findSub s pat).isSome

/-- Python `str.replace(pat, rep)` for a nonempty `pat`: repeatedly replace
the leftmost occurrence and resume after the replacement. -/
def replaceAllAux : Nat → Chars → Chars → Chars → Chars
  | 0, s, _, _ => s
  | fuel + 1, s, pat, rep =>
    match findSub s pat with
    | none => s
    | some i => s.take i ++ rep ++ replaceAllAux fuel (s.drop (i + pat.length)) pat rep

def replaceAllSub (s pat rep : Chars) : Chars :=
  if pat = [] then s else replaceAllAux s.length s pat rep

/-- Count of non-whitespace characters of a string; the inter-tag-whitespace
normalization below never changes it. -/
def nonWsCount (s : Chars) : Nat := (s.filter (fun c => !isWs c)).length

/-! ### `are_sxml_semantically_equal` (main.py lines 9-26)

Python:
```
sxml_str1 = re.sub(r'<\?xml.*?\?>', '', sxml_str1).strip()
normalized_str1 = re.sub(r'>\s+<', '><', sxml_str1)
return normalized_str1 == normalized_str2
```
`.` does not match a newline, and `.*?` is lazy, so a match of
`<\?xml.*?\?>` runs from a `<?xml` to the first following `?>` with no
intervening newline.  `re.sub` scans left to right, resuming after each
match. -/

/-- Scan for the first `?>`, failing at a newline; returns the suffix after
the `?>`.  This is the `.*?\?>` part of the declaration pattern (`.` does
not match a newline, `.*?` is lazy). -/
def scanToQgt : Chars → Option Chars
  | [] => none
  | c :: rest =>
    if c = '?' ∧ rest.head? = some '>' then some rest.tail
    else if c = '\n' then none
    else scanToQgt rest

/-- The attempt to match `<\?xml.*?\?>` at the start of `s`: on success,
the suffix of `s` after the match. -/
def declMatch (s : Chars) : Option Chars :=
  if (("<?xml").data).isPrefixOf s then scanToQgt (s.drop 5) else none

/-- Fuelled scan of `re.sub(r'<\?xml.*?\?>', '', s)`: at each position try
the declaration pattern; on a match drop it and resume after it, otherwise
keep the character and move on. -/
def subDeclAux : Nat → Chars → Chars
  | 0, s => s
  | _ + 1, [] => []
  | fuel + 1, c :: r =>
    match declMatch (c :: r) with
    | some rest => subDeclAux fuel rest
    | none => c :: subDeclAux fuel r

def subDecl (s : Chars) : Chars := subDeclAux s.length s

/-- The attempt to match `>\s+<` at a position whose character is `c` and
whose remaining input is `rest`. -/
abbrev collapseStep (c : Char) (rest : Chars) : Prop :=
  c = '>' ∧ rest.takeWhile isWs ≠ [] ∧ (rest.dropWhile isWs).head? = some '<'

/-- Fuelled scan of `re.sub(r'>\s+<', '><', s)`: at a `>` followed by one
or more whitespace characters and then a `<`, the run of whitespace is
dropped and scanning resumes after the `<`. -/
def collapseAux : Nat → Chars → Chars
  | 0, s => s
  | _ + 1, [] => []
  | fuel + 1, c :: rest =>
    if collapseStep c rest then
      '>' :: '<' :: collapseAux fuel ((rest.dropWhile isWs).tail)
    else c :: collapseAux fuel rest

def collapse (s : Chars) : Chars := collapseAux s.length s

/-- The normalization `are_sxml_semantically_equal` applies to each argument. -/
def normalizeSxml (s : Chars) : Chars := collapse (strip (subDecl s))

/-- main.py lines 9-26 (the `try` body never raises on string inputs, so the
`except` arm is dead). -/
def are_sxml_semantically_equal (s1 s2 : Chars) : Bool :=
  normalizeSxml s1 == normalizeSxml s2

/-! ### Lemmas about the string helpers -/

theorem isPrefixOf_append_self (l x : Chars) : l.isPrefixOf (l ++ x) = true := by
  induction l with
  | nil => simp [List.isPrefixOf]
  | cons c r ih => simp [List.isPrefixOf, ih]

theorem findSubAux_isSome (pat : Chars) :
    ∀ (s : Chars) (i j : Nat), (findSubAux s pat i).isSome = (findSubAux s pat j).isSome := by
  intro s
  induction s with
  | nil =>
    intro i j
    by_cases h : pat.isPrefixOf [] <;> simp [findSubAux, h]
  | cons c r ih =>
    intro i j
    by_cases h : pat.isPrefixOf (c :: r) <;>
      simp [findSubAux, h, ih (i + 1) (j + 1)]

theorem containsSub_cons (c : Char) (r pat : Chars) :
    containsSub (c :: r) pat = (pat.isPrefixOf (c :: r) || containsSub r pat) := by
  by_cases h : pat.isPrefixOf (c :: r)
  · simp [containsSub, findSub, findSubAux, h]
  · simp only [containsSub, findSub]
    rw [findSubAux]
    simp [h, findSubAux_isSome pat r 1 0]

theorem containsSub_false_cons {c : Char} {r pat : Chars}
    (h : containsSub (c :: r) pat = false) :
    pat.isPrefixOf (c :: r) = false ∧ containsSub r pat = false := by
  rw [containsSub_cons] at h
  exact ⟨by simpa using (Bool.or_eq_false_iff.mp h).1,
         (Bool.or_eq_false_iff.mp h).2⟩

/-! ### Lemmas about `subDecl` -/

theorem scanToQgt_length : ∀ (s r : Chars), scanToQgt s = some r → r.length + 2 ≤ s.length := by
  intro s
  induction s with
  | nil => intro r h; simp [scanToQgt] at h
  | cons c rest ih =>
    intro r h
    rw [scanToQgt] at h
    by_cases h1 : c = '?' ∧ rest.head? = some '>'
    · rw [if_pos h1] at h
      cases rest with
      | nil => simp at h1
      | cons a b =>
        injection h with h
        subst h
        simp [List.length_cons]
    · rw [if_neg h1] at h
      by_cases h2 : c = '\n'
      · rw [if_pos h2] at h; simp at h
      · rw [if_neg h2] at h
        have := ih r h
        simp only [List.length_cons]
        omega

theorem declMatch_some_length {s rest : Chars} (h : declMatch s = some rest) :
    rest.length + 7 ≤ s.length := by
  unfold declMatch at h
  by_cases hp : (("<?xml").data).isPrefixOf s
  · rw [if_pos hp] at h
    have hpre : (("<?xml").data) <+: s := List.isPrefixOf_iff_prefix.mp hp
    obtain ⟨t, ht⟩ := hpre
    have hlen := scanToQgt_length _ _ h
    have hdrop : s.drop 5 = t := by
      rw [← ht]
      exact List.drop_left' (by rfl)
    rw [hdrop] at hlen
    have h5 : (("<?xml").data).length = 5 := by rfl
    have hs : s.length = 5 + t.length := by
      rw [← ht, List.length_append, h5]
    omega
  · rw [if_neg hp] at h; simp at h

theorem subDeclAux_nilF : ∀ f, subDeclAux f [] = [] := by
  intro f; cases f <;> rfl

theorem subDeclAux_congr :
    ∀ (n f g : Nat) (s : Chars), s.length ≤ n → s.length ≤ f → s.length ≤ g →
    subDeclAux f s = subDeclAux g s := by
  intro n
  induction n with
  | zero =>
    intro f g s hn _ _
    have : s = [] := List.length_eq_zero.mp (Nat.le_zero.mp hn)
    subst this
    rw [subDeclAux_nilF, subDeclAux_nilF]
  | succ n ih =>
    intro f g s hn hf hg
    cases s with
    | nil => rw [subDeclAux_nilF, subDeclAux_nilF]
    | cons c r =>
      simp only [List.length_cons] at hn hf hg
      obtain ⟨f', rfl⟩ : ∃ k, f = k + 1 := ⟨f - 1, by omega⟩
      obtain ⟨g', rfl⟩ : ∃ k, g = k + 1 := ⟨g - 1, by omega⟩
      cases hm : declMatch (c :: r) with
      | none =>
        simp only [subDeclAux, hm]
        rw [ih f' g' r (by omega) (by omega) (by omega)]
      | some rest =>
        have hlen := declMatch_some_length hm
        simp only [List.length_cons] at hlen
        simp only [subDeclAux, hm]
        exact ih f' g' rest (by omega) (by omega) (by omega)

theorem subDeclAux_eq_subDecl {f : Nat} {s : Chars} (h : s.length ≤ f) :
    subDeclAux f s = subDecl s :=
  subDeclAux_congr f f s.length s h h le_rfl

theorem subDecl_nil : subDecl [] = [] := rfl

theorem subDecl_cons_none {c : Char} {r : Chars} (h : declMatch (c :: r) = none) :
    subDecl (c :: r) = c :: subDecl r := by
  show subDeclAux (r.length + 1) (c :: r) = _
  simp only [subDeclAux, h]
  rfl

theorem subDecl_cons_some {c : Char} {r rest : Chars} (h : declMatch (c :: r) = some rest) :
    subDecl (c :: r) = subDecl rest := by
  show subDeclAux (r.length + 1) (c :: r) = _
  simp only [subDeclAux, h]
  have hlen := declMatch_some_length h
  simp only [List.length_cons] at hlen
  exact subDeclAux_eq_subDecl (by omega)

theorem declMatch_none_of_ne_lt {c : Char} (r : Chars) (h : c ≠ '<') :
    declMatch (c :: r) = none := by
  unfold declMatch
  rw [if_neg]
  intro hp
  rw [show (("<?xml").data) = '<' :: '?' :: 'x' :: 'm' :: 'l' :: [] from rfl] at hp
  simp [List.isPrefixOf] at hp
  exact h hp.1.symm

theorem subDecl_append_noLt {w : Chars} (hw : ∀ c ∈ w, c ≠ '<') (b : Chars) :
    subDecl (w ++ b) = w ++ subDecl b := by
  induction w with
  | nil => rfl
  | cons c r ih =>
    have hc : c ≠ '<' := hw c (by simp)
    rw [List.cons_append, subDecl_cons_none (declMatch_none_of_ne_lt _ hc),
        ih (fun x hx => hw x (by simp [hx]))]
    simp

theorem subDecl_eq_self {s : Chars} (h : containsSub s (("<?xml").data) = false) :
    subDecl s = s := by
  induction s with
  | nil => rfl
  | cons c r ih =>
    obtain ⟨h1, h2⟩ := containsSub_false_cons h
    have hdm : declMatch (c :: r) = none := by
      unfold declMatch
      rw [if_neg (by simp [h1])]
    rw [subDecl_cons_none hdm, ih h2]

/-! ### Lemmas about `collapse` -/

theorem dropWhile_len_le (p : Char → Bool) (l : Chars) : (l.dropWhile p).length ≤ l.length := by
  induction l with
  | nil => simp
  | cons c r ih =>
    rw [List.dropWhile_cons]
    by_cases h : p c = true
    · simp only [if_pos h]
      exact Nat.le_succ_of_le ih
    · simp [h]

theorem collapseAux_nilF : ∀ f, collapseAux f [] = [] := by
  intro f; cases f <;> rfl

theorem collapseStep_tail_len {c : Char} {rest : Chars} (h : collapseStep c rest) :
    ((rest.dropWhile isWs).tail).length + 2 ≤ (c :: rest).length := by
  obtain ⟨-, -, h3⟩ := h
  cases hd : rest.dropWhile isWs with
  | nil => rw [hd] at h3; simp at h3
  | cons a t =>
    have hle : t.length + 1 ≤ rest.length := by
      have := dropWhile_len_le isWs rest
      rw [hd] at this; simpa using this
    simp only [List.tail_cons, List.length_cons]
    omega

theorem collapseAux_congr :
    ∀ (n f g : Nat) (s : Chars), s.length ≤ n → s.length ≤ f → s.length ≤ g →
    collapseAux f s = collapseAux g s := by
  intro n
  induction n with
  | zero =>
    intro f g s hn _ _
    have : s = [] := List.length_eq_zero.mp (Nat.le_zero.mp hn)
    subst this; rw [collapseAux_nilF, collapseAux_nilF]
  | succ n ih =>
    intro f g s hn hf hg
    cases s with
    | nil => rw [collapseAux_nilF, collapseAux_nilF]
    | cons c rest =>
      simp only [List.length_cons] at hn hf hg
      obtain ⟨f', rfl⟩ : ∃ k, f = k + 1 := ⟨f - 1, by omega⟩
      obtain ⟨g', rfl⟩ : ∃ k, g = k + 1 := ⟨g - 1, by omega⟩
      by_cases hs : collapseStep c rest
      · have hlen := collapseStep_tail_len hs
        simp only [List.length_cons] at hlen
        simp only [collapseAux, if_pos hs]
        rw [ih f' g' _ (by omega) (by omega) (by omega)]
      · simp only [collapseAux, if_neg hs]
        rw [ih f' g' rest (by omega) (by omega) (by omega)]

theorem collapseAux_eq_collapse {f : Nat} {s : Chars} (h : s.length ≤ f) :
    collapseAux f s = collapse s :=
  collapseAux_congr f f s.length s h h le_rfl

theorem collapse_cons_pos {c : Char} {rest : Chars} (h : collapseStep c rest) :
    collapse (c :: rest) = '>' :: '<' :: collapse ((rest.dropWhile isWs).tail) := by
  show collapseAux (rest.length + 1) (c :: rest) = _
  simp only [collapseAux, if_pos h]
  have hlen := collapseStep_tail_len h
  simp only [List.length_cons] at hlen
  rw [collapseAux_eq_collapse (by omega)]

theorem collapse_cons_neg {c : Char} {rest : Chars} (h : ¬ collapseStep c rest) :
    collapse (c :: rest) = c :: collapse rest := by
  show collapseAux (rest.length + 1) (c :: rest) = _
  simp only [collapseAux, if_neg h]
  rfl

theorem takeWhile_ws_append {w : Chars} (hw : ∀ c ∈ w, isWs c = true) {c : Char}
    (hc : isWs c = false) (b : Chars) :
    (w ++ c :: b).takeWhile isWs = w ∧ (w ++ c :: b).dropWhile isWs = c :: b := by
  induction w with
  | nil => simp [List.takeWhile_cons, List.dropWhile_cons, hc]
  | cons a r ih =>
    have ha : isWs a = true := hw a (by simp)
    have ih2 := ih (fun x hx => hw x (by simp [hx]))
    simp [List.takeWhile_cons, List.dropWhile_cons, ha, ih2.1, ih2.2]

theorem takeWhile_append_of_exists {p : Char → Bool} :
    ∀ (a : Chars), (¬ ∀ c ∈ a, p c = true) → ∀ X,
      (a ++ X).takeWhile p = a.takeWhile p ∧ (a ++ X).dropWhile p = a.dropWhile p ++ X ∧
      a.dropWhile p ≠ [] := by
  intro a
  induction a with
  | nil => intro h X; exact absurd (by simp) h
  | cons d r ih =>
    intro h X
    by_cases hd : p d = true
    · have hr : ¬ ∀ c ∈ r, p c = true := by
        intro hall
        exact h (by
          intro c hc
          rcases List.mem_cons.mp hc with rfl | hc
          · exact hd
          · exact hall c hc)
      obtain ⟨h1, h2, h3⟩ := ih hr X
      refine ⟨?_, ?_, ?_⟩ <;> simp [List.takeWhile_cons, List.dropWhile_cons, hd, h1, h2, h3]
    · refine ⟨?_, ?_, ?_⟩ <;> simp [List.takeWhile_cons, List.dropWhile_cons, hd]

theorem dropWhile_append_stop {p : Char → Bool} (a : Chars) {c : Char} (hc : p c = false)
    (x : Chars) : (a ++ c :: x).dropWhile p = a.dropWhile p ++ c :: x := by
  induction a with
  | nil => simp [List.dropWhile_cons, hc]
  | cons d r ih =>
    by_cases hd : p d = true
    · simp [List.dropWhile_cons, hd, ih]
    · simp [List.dropWhile_cons, hd]

theorem isWs_gt : isWs '>' = false := rfl

theorem isWs_lt : isWs '<' = false := rfl

/-- The inter-tag whitespace run of a `>w<` junction can be dropped without
changing the result of `collapse`, wherever the junction sits. -/
theorem collapse_gapInvN :
    ∀ (n : Nat) (a w b : Chars), a.length ≤ n → (∀ c ∈ w, isWs c = true) →
      collapse (a ++ '>' :: (w ++ '<' :: b)) = collapse (a ++ '>' :: '<' :: b) := by
  intro n
  induction n with
  | zero =>
    intro a w b hn hw
    have : a = [] := List.length_eq_zero.mp (Nat.le_zero.mp hn)
    subst this
    cases hwnil : w with
    | nil => rfl
    | cons cw wr =>
      rw [← hwnil]
      have hstep : collapseStep '>' (w ++ '<' :: b) := by
        obtain ⟨h1, h2⟩ := takeWhile_ws_append hw isWs_lt b
        refine ⟨rfl, ?_, ?_⟩
        · rw [h1, hwnil]; simp
        · rw [h2]; rfl
      rw [List.nil_append, collapse_cons_pos hstep]
      obtain ⟨-, h2⟩ := takeWhile_ws_append hw isWs_lt b
      rw [h2]
      have hs1 : ¬ collapseStep '>' ('<' :: b) := by
        rintro ⟨-, h2', -⟩
        simp [List.takeWhile_cons, isWs_lt] at h2'
      have hs2 : ¬ collapseStep '<' b := by
        rintro ⟨h1', -, -⟩
        simp at h1'
      rw [List.nil_append, collapse_cons_neg hs1, collapse_cons_neg hs2]
      rfl
  | succ n ih =>
    intro a w b hn hw
    cases a with
    | nil => exact ih [] w b (by simp) hw
    | cons c a2 =>
      simp only [List.length_cons] at hn
      by_cases hcgt : c = '>'
      · subst hcgt
        by_cases hall : ∀ x ∈ a2, isWs x = true
        · -- a2 is all whitespace; the next character after it is the `>` of the
          -- junction, so no `>\s+<` match starts here on either side.
          have hL := takeWhile_ws_append hall isWs_gt (w ++ '<' :: b)
          have hR := takeWhile_ws_append hall isWs_gt ('<' :: b)
          have hsL : ¬ collapseStep '>' (a2 ++ '>' :: (w ++ '<' :: b)) := by
            rintro ⟨-, -, h3⟩
            rw [hL.2] at h3; simp at h3
          have hsR : ¬ collapseStep '>' (a2 ++ '>' :: '<' :: b) := by
            rintro ⟨-, -, h3⟩
            rw [hR.2] at h3; simp at h3
          rw [List.cons_append, List.cons_append, collapse_cons_neg hsL,
              collapse_cons_neg hsR, ih a2 w b (by omega) hw]
        · -- a2 contains a non-whitespace character: the match attempt at this `>`
          -- resolves inside a2, identically on both sides.
          obtain ⟨h1L, h2L, h3⟩ := takeWhile_append_of_exists a2 hall ('>' :: (w ++ '<' :: b))
          obtain ⟨h1R, h2R, -⟩ := takeWhile_append_of_exists a2 hall ('>' :: '<' :: b)
          cases hd : a2.dropWhile isWs with
          | nil => exact absurd hd h3
          | cons e t =>
            by_cases hmatch : a2.takeWhile isWs ≠ [] ∧ e = '<'
            · have hsL : collapseStep '>' (a2 ++ '>' :: (w ++ '<' :: b)) := by
                refine ⟨rfl, ?_, ?_⟩
                · rw [h1L]; exact hmatch.1
                · rw [h2L, hd, hmatch.2]; rfl
              have hsR : collapseStep '>' (a2 ++ '>' :: '<' :: b) := by
                refine ⟨rfl, ?_, ?_⟩
                · rw [h1R]; exact hmatch.1
                · rw [h2R, hd, hmatch.2]; rfl
              rw [List.cons_append, List.cons_append, collapse_cons_pos hsL,
                  collapse_cons_pos hsR, h2L, h2R, hd]
              simp only [List.cons_append, List.tail_cons]
              have ht : t.length ≤ n := by
                have := dropWhile_len_le isWs a2
                rw [hd] at this
                simp only [List.length_cons] at this
                omega
              rw [show t ++ '>' :: (w ++ '<' :: b) = t ++ '>' :: (w ++ '<' :: b) from rfl,
                  ih t w b ht hw]
            · have hsL : ¬ collapseStep '>' (a2 ++ '>' :: (w ++ '<' :: b)) := by
                rintro ⟨-, hh2, hh3⟩
                rw [h1L] at hh2
                rw [h2L, hd] at hh3
                simp at hh3
                exact hmatch ⟨hh2, hh3⟩
              have hsR : ¬ collapseStep '>' (a2 ++ '>' :: '<' :: b) := by
                rintro ⟨-, hh2, hh3⟩
                rw [h1R] at hh2
                rw [h2R, hd] at hh3
                simp at hh3
                exact hmatch ⟨hh2, hh3⟩
              rw [List.cons_append, List.cons_append, collapse_cons_neg hsL,
                  collapse_cons_neg hsR, ih a2 w b (by omega) hw]
      · have hsL : ¬ collapseStep c (a2 ++ '>' :: (w ++ '<' :: b)) := by
          rintro ⟨h1', -, -⟩; exact hcgt h1'
        have hsR : ¬ collapseStep c (a2 ++ '>' :: '<' :: b) := by
          rintro ⟨h1', -, -⟩; exact hcgt h1'
        rw [List.cons_append, List.cons_append, collapse_cons_neg hsL,
            collapse_cons_neg hsR, ih a2 w b (by omega) hw]

theorem collapse_gapInv (a w b : Chars) (hw : ∀ c ∈ w, isWs c = true) :
    collapse (a ++ '>' :: (w ++ '<' :: b)) = collapse (a ++ '>' :: '<' :: b) :=
  collapse_gapInvN a.length a w b le_rfl hw

/-! ### The "identical except for whitespace between tags" relation -/

/-- `joinGaps c0 [(g1, c1), (g2, c2), ...]` is
`c0 ++ ">" ++ g1 ++ "<" ++ c1 ++ ">" ++ g2 ++ "<" ++ c2 ++ ...`:
a skeleton of shared chunks with a whitespace gap at each `>`…`<`
junction. -/
def joinGaps : Chars → List (Chars × Chars) → Chars
  | c0, [] => c0
  | c0, (g, c) :: rest => c0 ++ '>' :: (g ++ '<' :: joinGaps c rest)

def allWsL (w : Chars) : Prop := ∀ c ∈ w, isWs c = true

instance (w : Chars) : Decidable (allWsL w) := by
  unfold allWsL; infer_instance

/-- Two strings are identical except for whitespace occurring between a
closing `>` and an opening `<`: they arise from one skeleton of shared
chunks with (possibly empty) whitespace runs at the junctions. -/
def interTagVariant (s t : Chars) : Prop :=
  ∃ c0 ps qs, ps.map Prod.snd = qs.map Prod.snd ∧
    (∀ p ∈ ps, allWsL p.1) ∧ (∀ q ∈ qs, allWsL q.1) ∧
    s = joinGaps c0 ps ∧ t = joinGaps c0 qs

theorem collapse_joinGaps :
    ∀ (ps qs : List (Chars × Chars)) (A c0 : Chars),
      ps.map Prod.snd = qs.map Prod.snd →
      (∀ p ∈ ps, allWsL p.1) → (∀ q ∈ qs, allWsL q.1) →
      collapse (A ++ joinGaps c0 ps) = collapse (A ++ joinGaps c0 qs) := by
  intro ps
  induction ps with
  | nil =>
    intro qs A c0 hmap _ _
    cases qs with
    | nil => rfl
    | cons q qs2 => simp at hmap
  | cons p ps2 ih =>
    intro qs A c0 hmap hws1 hws2
    cases qs with
    | nil => simp at hmap
    | cons q qs2 =>
      obtain ⟨g1, c1⟩ := p
      obtain ⟨g2, c2⟩ := q
      simp only [List.map_cons, List.cons.injEq] at hmap
      obtain ⟨hc, hmap2⟩ := hmap
      subst hc
      rw [joinGaps, joinGaps]
      have e1 : A ++ (c0 ++ '>' :: (g1 ++ '<' :: joinGaps c1 ps2)) =
          (A ++ c0) ++ '>' :: (g1 ++ '<' :: joinGaps c1 ps2) := by
        rw [List.append_assoc]
      have e2 : A ++ (c0 ++ '>' :: (g2 ++ '<' :: joinGaps c1 qs2)) =
          (A ++ c0) ++ '>' :: (g2 ++ '<' :: joinGaps c1 qs2) := by
        rw [List.append_assoc]
      rw [e1, e2,
          collapse_gapInv (A ++ c0) g1 (joinGaps c1 ps2) (hws1 (g1, c1) (by simp)),
          collapse_gapInv (A ++ c0) g2 (joinGaps c1 qs2) (hws2 (g2, c1) (by simp))]
      have e3 : (A ++ c0) ++ '>' :: '<' :: joinGaps c1 ps2 =
          ((A ++ c0) ++ ['>', '<']) ++ joinGaps c1 ps2 := by
        simp
      have e4 : (A ++ c0) ++ '>' :: '<' :: joinGaps c1 qs2 =
          ((A ++ c0) ++ ['>', '<']) ++ joinGaps c1 qs2 := by
        simp
      rw [e3, e4]
      exact ih qs2 ((A ++ c0) ++ ['>', '<']) c1 hmap2
        (fun x hx => hws1 x (by simp [hx]))
        (fun x hx => hws2 x (by simp [hx]))

/-! ### `strip` interacts with the junction skeleton chunk-locally -/

theorem lstrip_ws_append {w : Chars} (hw : ∀ c ∈ w, isWs c = true) (x : Chars) :
    lstrip (w ++ x) = lstrip x := by
  induction w with
  | nil => rfl
  | cons a r ih =>
    have ha := hw a (by simp)
    show ((a :: (r ++ x)).dropWhile isWs) = _
    rw [List.dropWhile_cons, if_pos (by simp [ha])]
    exact ih (fun c hc => hw c (by simp [hc]))

theorem rstrip_append_nonws (A : Chars) {c : Char} (hc : isWs c = false) (Y : Chars) :
    rstrip (A ++ c :: Y) = A ++ c :: rstrip Y := by
  unfold rstrip
  rw [List.reverse_append, List.reverse_cons, List.append_assoc,
      List.singleton_append, dropWhile_append_stop _ hc, List.reverse_append,
      List.reverse_cons, List.reverse_reverse, List.append_assoc,
      List.singleton_append]

theorem lstrip_joinGaps (c0 : Chars) (ps : List (Chars × Chars)) (hne : ps ≠ []) :
    lstrip (joinGaps c0 ps) = joinGaps (lstrip c0) ps := by
  cases ps with
  | nil => exact absurd rfl hne
  | cons p rest =>
    obtain ⟨g, c⟩ := p
    rw [joinGaps, joinGaps]
    show List.dropWhile isWs _ = _
    rw [dropWhile_append_stop _ isWs_gt]
    rfl

/-- Replace the last chunk of a junction list by its right-stripped form. -/
def rstripLast : List (Chars × Chars) → List (Chars × Chars)
  | [] => []
  | [(g, c)] => [(g, rstrip c)]
  | p :: rest => p :: rstripLast rest

theorem rstripLast_cons_cons (p q : Chars × Chars) (r2 : List (Chars × Chars)) :
    rstripLast (p :: q :: r2) = p :: rstripLast (q :: r2) := rfl

theorem rstripLast_snd_congr : ∀ ps qs : List (Chars × Chars),
    ps.map Prod.snd = qs.map Prod.snd →
    (rstripLast ps).map Prod.snd = (rstripLast qs).map Prod.snd := by
  intro ps
  induction ps with
  | nil =>
    intro qs h
    cases qs with
    | nil => rfl
    | cons q r => simp at h
  | cons p rest ih =>
    intro qs h
    cases qs with
    | nil => simp at h
    | cons q qr =>
      simp only [List.map_cons, List.cons.injEq] at h
      obtain ⟨h1, h2⟩ := h
      cases rest with
      | nil =>
        cases qr with
        | nil =>
          obtain ⟨g1, c1⟩ := p
          obtain ⟨g2, c2⟩ := q
          simp only at h1
          subst h1
          rfl
        | cons x y => simp at h2
      | cons r1 r2 =>
        cases qr with
        | nil => simp at h2
        | cons x y =>
          rw [rstripLast_cons_cons, rstripLast_cons_cons]
          simp only [List.map_cons, List.cons.injEq]
          exact ⟨h1, by
            have := ih (x :: y) h2
            simpa using this⟩

theorem rstripLast_allWs : ∀ ps : List (Chars × Chars),
    (∀ p ∈ ps, allWsL p.1) → ∀ p ∈ rstripLast ps, allWsL p.1 := by
  intro ps
  induction ps with
  | nil => intro _ p hp; simp [rstripLast] at hp
  | cons p0 rest ih =>
    intro h p hp
    cases rest with
    | nil =>
      obtain ⟨g, c⟩ := p0
      simp only [rstripLast] at hp
      rcases List.mem_singleton.mp hp with rfl
      exact h (g, c) (by simp)
    | cons q r2 =>
      rw [rstripLast_cons_cons] at hp
      rcases List.mem_cons.mp hp with rfl | hp2
      · exact h p (by simp)
      · exact ih (fun x hx => h x (by simp [hx])) p hp2

theorem rstrip_joinGaps : ∀ (ps : List (Chars × Chars)) (c0 : Chars), ps ≠ [] →
    rstrip (joinGaps c0 ps) = joinGaps c0 (rstripLast ps) := by
  intro ps
  induction ps with
  | nil => intro c0 h; exact absurd rfl h
  | cons p rest ih =>
    intro c0 _
    obtain ⟨g, c⟩ := p
    cases rest with
    | nil =>
      rw [joinGaps]
      show rstrip _ = joinGaps c0 [(g, rstrip c)]
      rw [joinGaps, joinGaps]
      have e : c0 ++ '>' :: (g ++ '<' :: c) = (c0 ++ '>' :: g) ++ '<' :: c := by
        simp
      rw [e, rstrip_append_nonws _ isWs_lt]
      simp [joinGaps]
    | cons q r2 =>
      rw [rstripLast_cons_cons]
      have e : joinGaps c0 ((g, c) :: q :: r2) =
          (c0 ++ '>' :: g) ++ '<' :: joinGaps c (q :: r2) := by
        rw [joinGaps]
        simp
      rw [e, rstrip_append_nonws _ isWs_lt, ih c (by simp)]
      rw [joinGaps]
      simp

/-! ### Non-whitespace character counts are invariant under normalization -/

theorem nonWsCount_append (a b : Chars) :
    nonWsCount (a ++ b) = nonWsCount a + nonWsCount b := by
  simp [nonWsCount, List.filter_append]

theorem nonWsCount_cons (c : Char) (x : Chars) :
    nonWsCount (c :: x) = (if isWs c then 0 else 1) + nonWsCount x := by
  by_cases h : isWs c = true <;> simp [nonWsCount, List.filter_cons, h] <;> omega

theorem nonWsCount_allWs {w : Chars} (hw : ∀ c ∈ w, isWs c = true) :
    nonWsCount w = 0 := by
  induction w with
  | nil => rfl
  | cons c r ih =>
    rw [nonWsCount_cons, if_pos (hw c (by simp)), ih (fun x hx => hw x (by simp [hx]))]

theorem nonWsCount_dropWhile (s : Chars) :
    nonWsCount (s.dropWhile isWs) = nonWsCount s := by
  conv_rhs => rw [← List.takeWhile_append_dropWhile (p := isWs) (l := s)]
  rw [nonWsCount_append, nonWsCount_allWs (fun c hc => List.mem_takeWhile_imp hc)]
  omega

theorem nonWsCount_reverse (s : Chars) : nonWsCount s.reverse = nonWsCount s := by
  simp [nonWsCount, List.filter_reverse]

theorem nonWsCount_strip (s : Chars) : nonWsCount (strip s) = nonWsCount s := by
  unfold strip rstrip lstrip
  rw [nonWsCount_reverse, nonWsCount_dropWhile, nonWsCount_reverse, nonWsCount_dropWhile]

theorem nonWsCount_collapseN :
    ∀ (n : Nat) (s : Chars), s.length ≤ n → nonWsCount (collapse s) = nonWsCount s := by
  intro n
  induction n with
  | zero =>
    intro s hn
    have : s = [] := List.length_eq_zero.mp (Nat.le_zero.mp hn)
    subst this; rfl
  | succ n ih =>
    intro s hn
    cases s with
    | nil => rfl
    | cons c rest =>
      simp only [List.length_cons] at hn
      by_cases hs : collapseStep c rest
      · obtain ⟨hc, -, h3⟩ := id hs
        subst hc
        rw [collapse_cons_pos hs]
        cases hd : rest.dropWhile isWs with
        | nil => rw [hd] at h3; simp at h3
        | cons e tl =>
          have he : e = '<' := by rw [hd] at h3; simpa using h3
          subst he
          have hlen := collapseStep_tail_len hs
          rw [hd] at hlen
          simp only [List.tail_cons, List.length_cons] at hlen
          simp only [List.tail_cons]
          rw [nonWsCount_cons, nonWsCount_cons, ih tl (by omega)]
          conv_rhs => rw [nonWsCount_cons,
            show nonWsCount rest = nonWsCount (rest.dropWhile isWs) from
              (nonWsCount_dropWhile rest).symm,
            hd, nonWsCount_cons]
      · rw [collapse_cons_neg hs, nonWsCount_cons, nonWsCount_cons,
            ih rest (by omega)]

theorem nonWsCount_collapse (s : Chars) : nonWsCount (collapse s) = nonWsCount s :=
  nonWsCount_collapseN s.length s le_rfl

/-- The set of strings the declaration-removal pass leaves alone. -/
def noDecl (s : Chars) : Prop := containsSub s (("<?xml").data) = false

instance (s : Chars) : Decidable (noDecl s) := by
  unfold noDecl; infer_instance

theorem nonWsCount_normalize {s : Chars} (h : noDecl s) :
    nonWsCount (normalizeSxml s) = nonWsCount s := by
  unfold normalizeSxml
  rw [subDecl_eq_self h, nonWsCount_collapse, nonWsCount_strip]

theorem nonWsCount_joinGaps_congr :
    ∀ (ps qs : List (Chars × Chars)) (c0 : Chars),
      ps.map Prod.snd = qs.map Prod.snd →
      (∀ p ∈ ps, allWsL p.1) → (∀ q ∈ qs, allWsL q.1) →
      nonWsCount (joinGaps c0 ps) = nonWsCount (joinGaps c0 qs) := by
  intro ps
  induction ps with
  | nil =>
    intro qs c0 hmap _ _
    cases qs with
    | nil => rfl
    | cons q qs2 => simp at hmap
  | cons p ps2 ih =>
    intro qs c0 hmap hws1 hws2
    cases qs with
    | nil => simp at hmap
    | cons q qs2 =>
      obtain ⟨g1, c1⟩ := p
      obtain ⟨g2, c2⟩ := q
      simp only [List.map_cons, List.cons.injEq] at hmap
      obtain ⟨hc, hmap2⟩ := hmap
      subst hc
      rw [joinGaps, joinGaps, nonWsCount_append, nonWsCount_append,
          nonWsCount_cons, nonWsCount_cons, nonWsCount_append, nonWsCount_append,
          nonWsCount_cons, nonWsCount_cons,
          nonWsCount_allWs (hws1 (g1, c1) (by simp)),
          nonWsCount_allWs (hws2 (g2, c1) (by simp)),
          ih qs2 c1 hmap2 (fun x hx => hws1 x (by simp [hx]))
            (fun x hx => hws2 x (by simp [hx]))]

theorem interTagVariant_nonWsCount {s t : Chars} (h : interTagVariant s t) :
    nonWsCount s = nonWsCount t := by
  obtain ⟨c0, ps, qs, hmap, hws1, hws2, rfl, rfl⟩ := h
  exact nonWsCount_joinGaps_congr ps qs c0 hmap hws1 hws2

/-! ### The XML-declaration prolog -/

/-- A string of the exact shape the declaration pattern removes as one
match: `<?xml` + middle (no newline, no `?>` inside) + `?>`. -/
def isProlog (d : Chars) : Prop :=
  ∃ mid, d = ("<?xml").data ++ mid ++ '?' :: '>' :: [] ∧
    (∀ c ∈ mid, c ≠ '\n') ∧ containsSub mid ('?' :: '>' :: []) = false

theorem scanToQgt_exact : ∀ (mid : Chars), (∀ c ∈ mid, c ≠ '\n') →
    containsSub mid ('?' :: '>' :: []) = false → ∀ t,
    scanToQgt (mid ++ '?' :: '>' :: t) = some t := by
  intro mid
  induction mid with
  | nil =>
    intro _ _ t
    rw [List.nil_append, scanToQgt, if_pos ⟨rfl, rfl⟩]
    rfl
  | cons c m ih =>
    intro hnl hct t
    obtain ⟨hpre, hct2⟩ := containsSub_false_cons hct
    rw [List.cons_append, scanToQgt]
    have hcond : ¬ (c = '?' ∧ (m ++ '?' :: '>' :: t).head? = some '>') := by
      rintro ⟨rfl, hh⟩
      cases m with
      | nil => simp at hh
      | cons d m2 =>
        simp only [List.cons_append, List.head?_cons, Option.some.injEq] at hh
        subst hh
        rw [show ('?' :: '>' :: []).isPrefixOf ('?' :: '>' :: m2) = true from by
          simp [List.isPrefixOf]] at hpre
        exact absurd hpre (by simp)
    rw [if_neg hcond, if_neg (hnl c (by simp))]
    exact ih (fun x hx => hnl x (by simp [hx])) hct2 t

theorem subDecl_match_some {s rest : Chars} (h : declMatch s = some rest) :
    subDecl s = subDecl rest := by
  cases s with
  | nil =>
    exfalso
    unfold declMatch at h
    rw [if_neg] at h
    · simp at h
    · rw [show (("<?xml").data) = '<' :: '?' :: 'x' :: 'm' :: 'l' :: [] from rfl]
      simp [List.isPrefixOf]
  | cons c r => exact subDecl_cons_some h

theorem subDecl_prolog_append {d : Chars} (hd : isProlog d) (t : Chars) :
    subDecl (d ++ t) = subDecl t := by
  obtain ⟨mid, rfl, hnl, hct⟩ := hd
  apply subDecl_match_some
  unfold declMatch
  have e : ((("<?xml").data ++ mid ++ '?' :: '>' :: []) ++ t) =
      ("<?xml").data ++ (mid ++ '?' :: '>' :: t) := by simp
  rw [e, if_pos (isPrefixOf_append_self _ _),
      List.drop_left' (show (("<?xml").data).length = 5 from rfl)]
  exact scanToQgt_exact mid hnl hct t

theorem ws_ne_lt {c : Char} (h : isWs c = true) : c ≠ '<' := by
  intro he; subst he; exact absurd h (by decide)

/-- Core of the declaration-ignoring behaviour: leading whitespace, one
optional prolog and whitespace after it all vanish under the script's
normalization. -/
theorem normalize_strip_decl {u d v : Chars} (b : Chars) (hu : allWsL u) (hv : allWsL v)
    (hd : d = [] ∨ isProlog d) :
    normalizeSxml (u ++ d ++ v ++ b) = collapse (rstrip (lstrip (subDecl b))) := by
  unfold normalizeSxml
  have e : u ++ d ++ v ++ b = u ++ (d ++ (v ++ b)) := by simp
  rw [e, subDecl_append_noLt (fun c hc => ws_ne_lt (hu c hc))]
  have e2 : subDecl (d ++ (v ++ b)) = v ++ subDecl b := by
    rcases hd with rfl | hp
    · rw [List.nil_append, subDecl_append_noLt (fun c hc => ws_ne_lt (hv c hc))]
    · rw [subDecl_prolog_append hp, subDecl_append_noLt (fun c hc => ws_ne_lt (hv c hc))]
  rw [e2]
  unfold strip
  rw [lstrip_ws_append hu, lstrip_ws_append hv]

/-! ### Claim C6 -/

/-- C6, as stated, is false at an explicit input: the two strings below are
identical except for whitespace between a closing `>` and an opening `<`
(a single space versus a single newline), yet `are_sxml_semantically_equal`
returns `false`.  The space variant lets the `<\?xml.*?\?>` removal pass
consume the whole string while the newline blocks the lazy `.*?`, so the
two sides normalize differently. -/
theorem c6_counterexample :
    interTagVariant (("<?xml> <a?>").data) (("<?xml>\n<a?>").data) ∧
    are_sxml_semantically_equal (("<?xml> <a?>").data) (("<?xml>\n<a?>").data) = false := by
  constructor
  · exact ⟨("<?xml").data, [((" ").data, ("a?>").data)], [(("\n").data, ("a?>").data)],
      by decide, by decide, by decide, by decide, by decide⟩
  · decide

/-- C6 (amended): restricted to strings containing no occurrence of
`<?xml` (so that the XML-declaration removal pass is inert), the claim
holds: two strings identical except for whitespace between a closing `>`
and an opening `<` compare equal, and a string with a single added element
(a segment beginning with `<`) compares unequal to the string without
it. -/
theorem c6_amended :
    (∀ s t : Chars, noDecl s → noDecl t → interTagVariant s t →
      are_sxml_semantically_equal s t = true) ∧
    (∀ a e b : Chars, noDecl (a ++ e ++ b) → noDecl (a ++ b) →
      e.head? = some '<' →
      are_sxml_semantically_equal (a ++ e ++ b) (a ++ b) = false) := by
  constructor
  · intro s t hs ht hvar
    obtain ⟨c0, ps, qs, hmap, hws1, hws2, rfl, rfl⟩ := hvar
    unfold are_sxml_semantically_equal normalizeSxml
    rw [subDecl_eq_self hs, subDecl_eq_self ht]
    cases ps with
    | nil =>
      cases qs with
      | nil => exact beq_self_eq_true _
      | cons q qs2 => simp at hmap
    | cons p ps2 =>
      cases qs with
      | nil => simp at hmap
      | cons q qs2 =>
        unfold strip
        rw [lstrip_joinGaps c0 (p :: ps2) (by simp), lstrip_joinGaps c0 (q :: qs2) (by simp),
            rstrip_joinGaps (p :: ps2) (lstrip c0) (by simp),
            rstrip_joinGaps (q :: qs2) (lstrip c0) (by simp),
            show joinGaps (lstrip c0) (rstripLast (p :: ps2)) =
              [] ++ joinGaps (lstrip c0) (rstripLast (p :: ps2)) from rfl,
            show joinGaps (lstrip c0) (rstripLast (q :: qs2)) =
              [] ++ joinGaps (lstrip c0) (rstripLast (q :: qs2)) from rfl,
            collapse_joinGaps (rstripLast (p :: ps2)) (rstripLast (q :: qs2)) [] (lstrip c0)
              (rstripLast_snd_congr _ _ hmap) (rstripLast_allWs _ hws1)
              (rstripLast_allWs _ hws2)]
        exact beq_self_eq_true _
  · intro a e b h1 h2 hhead
    have hcount1 : nonWsCount (normalizeSxml (a ++ e ++ b)) = nonWsCount (a ++ e ++ b) :=
      nonWsCount_normalize h1
    have hcount2 : nonWsCount (normalizeSxml (a ++ b)) = nonWsCount (a ++ b) :=
      nonWsCount_normalize h2
    have hce : 1 ≤ nonWsCount e := by
      cases e with
      | nil => simp at hhead
      | cons x xs =>
        have hx : x = '<' := by simpa using hhead
        subst hx
        rw [nonWsCount_cons]
        have : isWs '<' = false := by decide
        rw [this]
        simp
    unfold are_sxml_semantically_equal
    apply beq_eq_false_iff_ne.mpr
    intro heq
    have hco := congrArg nonWsCount heq
    rw [hcount1, hcount2, nonWsCount_append, nonWsCount_append, nonWsCount_append] at hco
    omega

/-- Concrete instantiation of `c6_amended`: a pair differing only in one
inter-tag whitespace run compares equal; adding one element makes the
comparison fail. -/
theorem c6_amended_witness :
    (noDecl (("<a> <b>").data) ∧ noDecl (("<a><b>").data) ∧
      interTagVariant (("<a> <b>").data) (("<a><b>").data) ∧
      are_sxml_semantically_equal (("<a> <b>").data) (("<a><b>").data) = true) ∧
    (noDecl (("<r>").data ++ ("<b/>").data ++ ("</r>").data) ∧
      ((("<b/>").data).head? = some '<') ∧
      are_sxml_semantically_equal (("<r>").data ++ ("<b/>").data ++ ("</r>").data)
        (("<r>").data ++ ("</r>").data) = false) := by
  have hvar : interTagVariant (("<a> <b>").data) (("<a><b>").data) :=
    ⟨("<a").data, [((" ").data, ("b>").data)], [(([] : Chars), ("b>").data)],
      by decide, by decide, by decide, by decide, by decide⟩
  exact ⟨⟨by decide, by decide, hvar, c6_amended.1 _ _ (by decide) (by decide) hvar⟩,
    ⟨by decide, by decide,
      c6_amended.2 (("<r>").data) (("<b/>").data) (("</r>").data)
        (by decide) (by decide) (by decide)⟩⟩

/-! ### Claim C10 -/

/-- C10: the semantic-equality function also ignores the leading XML
declaration.  Any two strings that agree after removing a (possibly
absent, possibly different) `<?xml … ?>` prolog and the whitespace around
it compare equal; and the induced equivalence is strictly coarser than
inter-tag-whitespace-only equality, witnessed by a pair that compares
equal but whose members are not inter-tag-whitespace variants of each
other (their non-whitespace contents differ). -/
theorem c10_decl_ignored :
    (∀ u1 d1 v1 u2 d2 v2 b : Chars, allWsL u1 → allWsL v1 → allWsL u2 → allWsL v2 →
      (d1 = [] ∨ isProlog d1) → (d2 = [] ∨ isProlog d2) →
      are_sxml_semantically_equal (u1 ++ d1 ++ v1 ++ b) (u2 ++ d2 ++ v2 ++ b) = true) ∧
    (are_sxml_semantically_equal (("<?xml version=\"1.0\" ?><r/>").data)
        (("<r/>").data) = true ∧
      ¬ interTagVariant (("<?xml version=\"1.0\" ?><r/>").data) (("<r/>").data)) := by
  refine ⟨?_, ?_, ?_⟩
  · intro u1 d1 v1 u2 d2 v2 b hu1 hv1 hu2 hv2 hd1 hd2
    unfold are_sxml_semantically_equal
    rw [normalize_strip_decl b hu1 hv1 hd1, normalize_strip_decl b hu2 hv2 hd2]
    exact beq_self_eq_true _
  · decide
  · intro h
    have hco := interTagVariant_nonWsCount h
    revert hco
    decide

/-- Concrete instantiation of `c10_decl_ignored`: a string with leading
space, a one-attribute prolog and a newline after it compares equal to the
bare document. -/
theorem c10_witness :
    allWsL ((" ").data) ∧ isProlog (("<?xml a?>").data) ∧
    are_sxml_semantically_equal
      ((" ").data ++ ("<?xml a?>").data ++ ("\n").data ++ ("<x/>").data)
      (([] : Chars) ++ ([] : Chars) ++ ([] : Chars) ++ ("<x/>").data) = true := by
  refine ⟨by decide, ⟨(" a").data, by decide, by decide, by decide⟩, ?_⟩
  exact c10_decl_ignored.1 _ _ _ _ _ _ _ (by decide) (by decide) (by decide) (by decide)
    (Or.inr ⟨(" a").data, by decide, by decide, by decide⟩) (Or.inl rfl)

/-! ### `reset_start_with_value` (main.py lines 384-391)

Python:
```
start_with_match = re.search(r'(<START_WITH>)(\d+)(</START_WITH>)', sxml_string)
if start_with_match:
    original_value = start_with_match.group(2)
    if original_value != '1':
        corrected_sxml = sxml_string.replace(start_with_match.group(0),
                                             f'<START_WITH>1</START_WITH>')
        return corrected_sxml, True, original_value
return sxml_string, False, None
```
`re.search` finds only the leftmost match; `str.replace` then replaces every
occurrence of that exact matched text. -/

/-- The full text of a `<START_WITH>v</START_WITH>` match (`group(0)`). -/
def swPat (v : Chars) : Chars :=
  ("<START_WITH>").data ++ v ++ ("</START_WITH>").data

/-- Attempt to match `(<START_WITH>)(\d+)(</START_WITH>)` at the head of
`s`; on success, the digit group.  `\d+` is greedy, and giving digits back
can never make the following literal `<` match, so the maximal digit run
is the only candidate. -/
def startWithAt (s : Chars) : Option Chars :=
  if (("<START_WITH>").data).isPrefixOf s then
    let rest := s.drop 12
    let ds := rest.takeWhile isDigitCh
    if ds ≠ [] ∧ (("</START_WITH>").data).isPrefixOf (rest.dropWhile isDigitCh) then some ds
    else none
  else none

/-- `re.search(r'(<START_WITH>)(\d+)(</START_WITH>)', s)`: the digit group
of the leftmost match. -/
def searchStartWith : Chars → Option Chars
  | [] => none
  | c :: r =>
    match startWithAt (c :: r) with
    | some ds => some ds
    | none => searchStartWith r

/-- main.py lines 384-391. -/
def reset_start_with_value (s : Chars) : Chars × Bool × Option Chars :=
  match searchStartWith s with
  | some v =>
    if v ≠ ("1").data then
      (replaceAllSub s (swPat v) (("<START_WITH>1</START_WITH>").data), true, some v)
    else (s, false, none)
  | none => (s, false, none)

/-! ### Lemmas about `replaceAllSub` -/

theorem replaceAllAux_none {s pat rep : Chars} (h : findSub s pat = none) :
    ∀ f, replaceAllAux f s pat rep = s := by
  intro f
  cases f with
  | zero => rfl
  | succ f2 => simp only [replaceAllAux, h]

/-- `str.replace` on a string holding exactly one occurrence of the
pattern, located at the split point: a pure splice. -/
theorem replaceAll_splice {x pat y rep : Chars} (hpat : pat ≠ [])
    (hfind : findSub (x ++ pat ++ y) pat = some x.length)
    (hy : containsSub y pat = false) :
    replaceAllSub (x ++ pat ++ y) pat rep = x ++ rep ++ y := by
  unfold replaceAllSub
  rw [if_neg hpat]
  have hplen : 1 ≤ pat.length := by
    cases pat with
    | nil => exact absurd rfl hpat
    | cons a b => simp
  obtain ⟨n, hn⟩ : ∃ n, (x ++ pat ++ y).length = n + 1 := by
    refine ⟨(x ++ pat ++ y).length - 1, ?_⟩
    simp only [List.length_append]
    omega
  rw [hn]
  simp only [replaceAllAux, hfind]
  have htake : (x ++ pat ++ y).take x.length = x := by
    rw [List.append_assoc, List.take_left]
  have hdrop : (x ++ pat ++ y).drop (x.length + pat.length) = y := by
    rw [show x.length + pat.length = (x ++ pat).length from (List.length_append x pat).symm,
        List.drop_left]
  rw [htake, hdrop,
      replaceAllAux_none (by
        cases hfy : findSub y pat with
        | none => rfl
        | some i => rw [show containsSub y pat = true from by simp [containsSub, hfy]] at hy; exact absurd hy (by simp)) n]

/-! ### Claim C7 -/

/-- C7, as stated, is false at an explicit input: with two generators whose
start values are 5 and 7, the reset rewrites only the first (and its exact
textual copies); the `<START_WITH>7</START_WITH>` entry survives in the
output even though its value is not 1. -/
theorem c7_counterexample :
    reset_start_with_value
        (("<START_WITH>5</START_WITH><START_WITH>7</START_WITH>").data) =
      ((("<START_WITH>1</START_WITH><START_WITH>7</START_WITH>").data), true,
        some (("5").data)) ∧
    containsSub (reset_start_with_value
        (("<START_WITH>5</START_WITH><START_WITH>7</START_WITH>").data)).1
      (("<START_WITH>7</START_WITH>").data) = true := by
  constructor
  · decide
  · decide

/-- C7 (amended): the reset examines only the leftmost
`<START_WITH>digits</START_WITH>` match.  If there is no match, or the
leftmost value is already `1`, the string is returned unchanged and
unflagged.  If the leftmost value `v` is not `1`, every occurrence of the
exact text `<START_WITH>v</START_WITH>` is replaced by
`<START_WITH>1</START_WITH>`, the fix is flagged and carries `v`; in
particular, when that text occurs exactly once at a known split and the
rest of the string is untouched verbatim (so later generators with a
different start value are not rewritten). -/
theorem c7_amended :
    (∀ s : Chars, (searchStartWith s = none ∨ searchStartWith s = some (("1").data)) →
      reset_start_with_value s = (s, false, none)) ∧
    (∀ s v : Chars, searchStartWith s = some v → v ≠ ("1").data →
      reset_start_with_value s =
        (replaceAllSub s (swPat v) (("<START_WITH>1</START_WITH>").data), true, some v)) ∧
    (∀ x y v : Chars, searchStartWith (x ++ swPat v ++ y) = some v → v ≠ ("1").data →
      findSub (x ++ swPat v ++ y) (swPat v) = some x.length →
      containsSub y (swPat v) = false →
      reset_start_with_value (x ++ swPat v ++ y) =
        (x ++ (("<START_WITH>1</START_WITH>").data) ++ y, true, some v)) := by
  refine ⟨?_, ?_, ?_⟩
  · intro s h
    unfold reset_start_with_value
    rcases h with h | h
    · rw [h]
    · rw [h]
      simp
  · intro s v h hne
    unfold reset_start_with_value
    simp only [h]
    rw [if_pos hne]
  · intro x y v h hne hfind hy
    unfold reset_start_with_value
    simp only [h]
    rw [if_pos hne, replaceAll_splice (by unfold swPat; simp) hfind hy]

/-- Concrete instantiation of `c7_amended`: a leftmost value `500` is reset
to `1` while a later generator with start value `7` keeps its text. -/
theorem c7_witness :
    reset_start_with_value (("<a/>").data) = ((("<a/>").data), false, none) ∧
    reset_start_with_value
        (("<x>").data ++ swPat (("500").data) ++
          ("</x><START_WITH>7</START_WITH>").data) =
      ((("<x>").data ++ (("<START_WITH>1</START_WITH>").data) ++
          ("</x><START_WITH>7</START_WITH>").data), true, some (("500").data)) := by
  constructor
  · exact c7_amended.1 (("<a/>").data) (Or.inl (by decide))
  · exact c7_amended.2.2 (("<x>").data) (("</x><START_WITH>7</START_WITH>").data)
      (("500").data) (by decide) (by decide) (by decide) (by decide)

/-! ### DDL extraction (compare_ddl_and_sxml_columns lines 248-283,
reorder_sxml_columns_to_match_ddl lines 126-134, add_missing_columns_to_sxml
lines 187-198) -/

/-- Case-insensitive literal prefix test (`re.IGNORECASE` over ASCII). -/
def isPrefixOfCI : Chars → Chars → Bool
  | [], _ => true
  | _ :: _, [] => false
  | a :: as, b :: bs => (upChar b = upChar a) && isPrefixOfCI as bs

/-- Match `CREATE\s+TABLE\s+` at the head of `s` (case-insensitive); on
success, the remainder.  `\s+` is greedy and no whitespace character can
begin `TABLE`, so the maximal whitespace run is the only candidate. -/
def createHeaderAt (s : Chars) : Option Chars :=
  if isPrefixOfCI (("CREATE").data) s then
    let r1 := s.drop 6
    if r1.takeWhile isWs = [] then none
    else
      let r2 := r1.dropWhile isWs
      if isPrefixOfCI (("TABLE").data) r2 then
        let r3 := r2.drop 5
        if r3.takeWhile isWs = [] then none else some (r3.dropWhile isWs)
      else none
  else none

/-- Match the whole pattern `CREATE\s+TABLE\s+.*?\((.*)\)` (DOTALL) at the
head of `s`: after the header, the lazy `.*?\(` stops at the first `(`,
and the greedy `(.*)\)` then captures up to the last `)` of the string;
if no `)` follows the first `(`, no later `(` can help, so the attempt
fails. -/
def createMatchAt (s : Chars) : Option Chars :=
  match createHeaderAt s with
  | none => none
  | some rem =>
    match findSub rem (['(']) with
    | none => none
    | some i =>
      let after := rem.drop (i + 1)
      match findSub after.reverse ([')']) with
      | none => none
      | some j => some (after.take (after.length - 1 - j))

/-- `re.search(r'CREATE\s+TABLE\s+.*?\((.*)\)', ddl, re.DOTALL | re.IGNORECASE)`:
group 1 of the leftmost match. -/
def createColumnsBlock : Chars → Option Chars
  | [] => none
  | c :: r =>
    match createMatchAt (c :: r) with
    | some g => some g
    | none => createColumnsBlock r

/-- Match of `^\s*"([^"]+)"\s+(.*)` at a line-start position (pattern of
compare_ddl_and_sxml_columns line 251): `\s*` and `\s+` may cross
newlines (maximal runs, since no whitespace can begin `"` or end the
match earlier), `[^"]+` runs to the next quote, and `.*` (no DOTALL)
takes the rest of the current line.  Returns (name, definition,
remainder after the match). -/
def colDefAt (s : Chars) : Option (Chars × Chars × Chars) :=
  match s.dropWhile isWs with
  | '"' :: r2 =>
    let name := r2.takeWhile (fun c => c ≠ '"')
    match r2.dropWhile (fun c => c ≠ '"') with
    | '"' :: r4 =>
      if name = [] then none
      else if r4.takeWhile isWs = [] then none
      else
        let r5 := r4.dropWhile isWs
        some (name, r5.takeWhile (fun c => c ≠ '\n'), r5.dropWhile (fun c => c ≠ '\n'))
    | _ => none
  | _ => none

/-- `re.findall(r'^\s*"([^"]+)"\s+(.*)', block, re.MULTILINE | re.IGNORECASE)`:
scan every position, attempting the anchored pattern only at line starts,
resuming after each match (whose end never sits at a line start: the
matched `.*` is a maximal newline-free run and is nonempty whenever the
remainder is). -/
def findallColDefs : Nat → Bool → Chars → List (Chars × Chars)
  | 0, _, _ => []
  | _ + 1, _, [] => []
  | fuel + 1, bol, c :: r =>
    if bol then
      match colDefAt (c :: r) with
      | some (name, defn, rest) => (name, defn) :: findallColDefs fuel false rest
      | none => findallColDefs fuel (c = '\n') r
    else findallColDefs fuel (c = '\n') r

/-- Match of `^\s*"([^"]+)"` at a line-start position (pattern of
reorder_sxml_columns_to_match_ddl line 131).  Returns (name, remainder
after the closing quote). -/
def colNameAt (s : Chars) : Option (Chars × Chars) :=
  match s.dropWhile isWs with
  | '"' :: r2 =>
    let name := r2.takeWhile (fun c => c ≠ '"')
    match r2.dropWhile (fun c => c ≠ '"') with
    | '"' :: r4 => if name = [] then none else some (name, r4)
    | _ => none
  | _ => none

/-- `re.findall(r'^\s*"([^"]+)"', block, re.MULTILINE | re.IGNORECASE)`. -/
def findallColNames : Nat → Bool → Chars → List Chars
  | 0, _, _ => []
  | _ + 1, _, [] => []
  | fuel + 1, bol, c :: r =>
    if bol then
      match colNameAt (c :: r) with
      | some (name, rest) => name :: findallColNames fuel false rest
      | none => findallColNames fuel (c = '\n') r
    else findallColNames fuel (c = '\n') r

/-- The list `[name.upper() for name in re.findall(r'^\s*"([^"]+)"', block, ...)]`
of reorder (line 131), through the CREATE-block extraction (lines 126-134). -/
def ddlOrderedCols (ddl : Chars) : List Chars :=
  match createColumnsBlock ddl with
  | none => []
  | some block => (findallColNames (block.length + 1) true block).map upper

/-- The per-column attribute record `ddl_cols[name]` of
compare_ddl_and_sxml_columns; a key the code never sets is `none`
(`dict.get` returns `None`). -/
structure DdlAttrs where
  not_null : Bool
  type? : Option Chars := none
  length? : Option Chars := none
  precision? : Option Chars := none
  scale? : Option Chars := none
deriving DecidableEq

/-- Match `NUMBER\((\d+),(\d+)\)` (IGNORECASE) at the head of `s`.  `\d+`
is greedy and no digit can serve as the following literal, so the maximal
digit runs are the only candidates. -/
def numberPSAt (s : Chars) : Option (Chars × Chars) :=
  if isPrefixOfCI (("NUMBER(").data) s then
    let r := s.drop 7
    let d1 := r.takeWhile isDigitCh
    if d1 = [] then none
    else
      match r.dropWhile isDigitCh with
      | ',' :: r2 =>
        let d2 := r2.takeWhile isDigitCh
        if d2 = [] then none
        else
          match r2.dropWhile isDigitCh with
          | ')' :: _ => some (d1, d2)
          | _ => none
      | _ => none
  else none

def searchNumberPS : Chars → Option (Chars × Chars)
  | [] => none
  | c :: r =>
    match numberPSAt (c :: r) with
    | some g => some g
    | none => searchNumberPS r

/-- Match `NUMBER\((\d+)\)` (IGNORECASE) at the head of `s`. -/
def numberPAt (s : Chars) : Option Chars :=
  if isPrefixOfCI (("NUMBER(").data) s then
    let r := s.drop 7
    let d1 := r.takeWhile isDigitCh
    if d1 = [] then none
    else
      match r.dropWhile isDigitCh with
      | ')' :: _ => some d1
      | _ => none
  else none

def searchNumberP : Chars → Option Chars
  | [] => none
  | c :: r =>
    match numberPAt (c :: r) with
    | some g => some g
    | none => searchNumberP r

/-- Match `\((\d+)` at the head of `s` (the VARCHAR2 length capture). -/
def lparenDigitsAt (s : Chars) : Option Chars :=
  match s with
  | '(' :: r =>
    let d := r.takeWhile isDigitCh
    if d = [] then none else some d
  | _ => none

def searchLParenDigits : Chars → Option Chars
  | [] => none
  | c :: r =>
    match lparenDigitsAt (c :: r) with
    | some g => some g
    | none => searchLParenDigits r

/-- Match `\((\d+)\)` at the head of `s` (the TIMESTAMP scale capture). -/
def parenDigitsAt (s : Chars) : Option Chars :=
  match s with
  | '(' :: r =>
    let d := r.takeWhile isDigitCh
    if d = [] then none
    else
      match r.dropWhile isDigitCh with
      | ')' :: _ => some d
      | _ => none
  | _ => none

def searchParenDigits : Chars → Option Chars
  | [] => none
  | c :: r =>
    match parenDigitsAt (c :: r) with
    | some g => some g
    | none => searchParenDigits r

/-- The per-definition classification of compare_ddl_and_sxml_columns
(lines 252-283).  `none` models the uncaught IndexError Python raises on
`''.split()[0]` when the cleaned definition is empty (that exception
aborts the whole per-file processing). -/
def parseColDef (rawDef : Chars) : Option DdlAttrs :=
  let d := rstripComma (strip rawDef)
  if d = [] then none
  else
    let du := upper d
    let notNull := containsSub du (("NOT NULL").data)
    let type_def := du.takeWhile (fun c => !isWs c)
    some (
      if (("VARCHAR2").data).isPrefixOf type_def then
        { not_null := notNull, type? := some (("VARCHAR2").data),
          length? := searchLParenDigits d }
      else if (("NUMBER").data).isPrefixOf type_def then
        match searchNumberPS d with
        | some (p, sc) =>
          { not_null := notNull, type? := some (("NUMBER").data),
            precision? := some p, scale? := some sc }
        | none =>
          match searchNumberP d with
          | some p =>
            { not_null := notNull, type? := some (("NUMBER").data),
              precision? := some p, scale? := some (("0").data) }
          | none => { not_null := notNull, type? := some (("NUMBER").data) }
      else if (("DATE").data).isPrefixOf type_def then
        { not_null := notNull, type? := some (("DATE").data) }
      else if (("CLOB").data).isPrefixOf type_def then
        { not_null := notNull, type? := some (("CLOB").data) }
      else if (("BLOB").data).isPrefixOf type_def then
        { not_null := notNull, type? := some (("BLOB").data) }
      else if (("TIMESTAMP").data).isPrefixOf type_def then
        { not_null := notNull, type? := some (("TIMESTAMP_WITH_LOCAL_TIMEZONE").data),
          scale? := searchParenDigits d }
      else { not_null := notNull })

/-- Insert-or-replace in an association list, keeping the key order of a
Python dict (the first insertion fixes the position). -/
def upsert (k : Chars) (v : α) : List (Chars × α) → List (Chars × α)
  | [] => [(k, v)]
  | (k2, v2) :: rest => if k2 = k then (k2, v) :: rest else (k2, v2) :: upsert k v rest

def lookupD (k : Chars) : List (Chars × α) → Option α
  | [] => none
  | (k2, v) :: rest => if k2 = k then some v else lookupD k rest

/-- The `for name, definition in col_definitions:` loop of
compare_ddl_and_sxml_columns (lines 252-283). -/
def buildDdlCols : List (Chars × Chars) → List (Chars × DdlAttrs) →
    Option (List (Chars × DdlAttrs))
  | [], acc => some acc
  | (nm, rd) :: rest, acc =>
    match parseColDef rd with
    | none => none
    | some attrs => buildDdlCols rest (upsert (upper nm) attrs acc)

/-- The DDL half of compare_ddl_and_sxml_columns (lines 245-283): an empty
dict when the CREATE pattern does not match, otherwise the per-line
records; `none` models the uncaught IndexError. -/
def ddlColsOf (ddl : Chars) : Option (List (Chars × DdlAttrs)) :=
  match createColumnsBlock ddl with
  | none => some []
  | some block => buildDdlCols (findallColDefs (block.length + 1) true block) []

/-! ### Claim C9 -/

theorem lstrip_cons_nonws {c : Char} (h : isWs c = false) (r : Chars) :
    lstrip (c :: r) = c :: r := by
  show List.dropWhile isWs (c :: r) = _
  rw [List.dropWhile_cons]
  simp [h]

theorem isDigitCh_bounds {d : Char} (h : isDigitCh d = true) : '0' ≤ d ∧ d ≤ '9' := by
  unfold isDigitCh at h
  rw [Bool.and_eq_true, decide_eq_true_eq, decide_eq_true_eq] at h
  exact h

theorem digit_ne {d c : Char} (hd : isDigitCh d = true) (hc : ¬ ('0' ≤ c ∧ c ≤ '9')) :
    d ≠ c := by
  intro he; subst he; exact hc (isDigitCh_bounds hd)

theorem digit_upChar {d : Char} (hd : isDigitCh d = true) : upChar d = d := by
  have hb := isDigitCh_bounds hd
  unfold upChar
  rw [if_neg]
  intro h
  rw [Bool.and_eq_true, decide_eq_true_eq, decide_eq_true_eq] at h
  exact absurd (le_trans h.1 hb.2) (by decide)

theorem digit_not_ws {d : Char} (hd : isDigitCh d = true) : isWs d = false := by
  have h1 : d ≠ ' ' := digit_ne hd (by decide)
  have h2 : d ≠ '\t' := digit_ne hd (by decide)
  have h3 : d ≠ '\n' := digit_ne hd (by decide)
  have h4 : d ≠ '\r' := digit_ne hd (by decide)
  have h5 : d ≠ '\x0b' := digit_ne hd (by decide)
  have h6 : d ≠ '\x0c' := digit_ne hd (by decide)
  unfold isWs
  simp [h1, h2, h3, h4, h5, h6]

theorem map_upChar_digits {ds : Chars} (h : ∀ c ∈ ds, isDigitCh c = true) :
    ds.map upChar = ds := by
  induction ds with
  | nil => rfl
  | cons c r ih =>
    rw [List.map_cons, digit_upChar (h c (by simp)), ih (fun x hx => h x (by simp [hx]))]

theorem takeWhile_append_all {p : Char → Bool} {w : Chars} (hw : ∀ c ∈ w, p c = true)
    {c : Char} (hc : p c = false) (b : Chars) :
    (w ++ c :: b).takeWhile p = w ∧ (w ++ c :: b).dropWhile p = c :: b := by
  induction w with
  | nil => simp [List.takeWhile_cons, List.dropWhile_cons, hc]
  | cons a r ih =>
    have ha : p a = true := hw a (by simp)
    have ih2 := ih (fun x hx => hw x (by simp [hx]))
    simp [List.takeWhile_cons, List.dropWhile_cons, ha, ih2.1, ih2.2]

theorem containsSub_false_of_head_notMem {pat : Chars} {p0 : Char}
    (hp : pat.head? = some p0) :
    ∀ s : Chars, (∀ c ∈ s, c ≠ p0) → containsSub s pat = false := by
  intro s
  induction s with
  | nil =>
    intro _
    cases pat with
    | nil => simp at hp
    | cons q qs => simp [containsSub, findSub, findSubAux, List.isPrefixOf]
  | cons c r ih =>
    intro hs
    rw [containsSub_cons]
    have hpre : pat.isPrefixOf (c :: r) = false := by
      cases pat with
      | nil => simp at hp
      | cons q qs =>
        have hq : q = p0 := by simpa using hp
        subst hq
        simp only [List.isPrefixOf, Bool.and_eq_false_iff]
        left
        simp
        exact fun he => (hs c (by simp)) he.symm
    rw [hpre, ih (fun x hx => hs x (by simp [hx]))]
    rfl

theorem isPrefixOfCI_self_append : ∀ (l x : Chars), isPrefixOfCI l (l ++ x) = true := by
  intro l x
  induction l with
  | nil => rfl
  | cons c r ih => simp [isPrefixOfCI, ih]

theorem searchNumberPS_none : ∀ {s : Chars}, (∀ c ∈ s, upChar c ≠ 'N') →
    searchNumberPS s = none := by
  intro s
  induction s with
  | nil => intro _; rfl
  | cons c r ih =>
    intro hs
    have hat : numberPSAt (c :: r) = none := by
      unfold numberPSAt
      rw [if_neg]
      intro h
      rw [show (("NUMBER(").data) = 'N' :: ('U' :: 'M' :: 'B' :: 'E' :: 'R' :: '(' :: [])
        from rfl] at h
      simp only [isPrefixOfCI, Bool.and_eq_true, decide_eq_true_eq] at h
      exact hs c (by simp) (by simpa using h.1)
    simp only [searchNumberPS, hat]
    exact ih (fun x hx => hs x (by simp [hx]))

theorem rstripComma_append_nonc (A : Chars) {c : Char} (hc : decide (c = ',') = false)
    (Y : Chars) : rstripComma (A ++ c :: Y) = A ++ c :: rstripComma Y := by
  unfold rstripComma
  rw [List.reverse_append, List.reverse_cons, List.append_assoc, List.singleton_append,
      dropWhile_append_stop _ hc, List.reverse_append, List.reverse_cons,
      List.reverse_reverse, List.append_assoc, List.singleton_append]

/-- C9: for every `NUMBER(p)` column definition with a single (all-digit,
nonempty) precision argument, the DDL extraction produces precision `p`
and the explicit scale string `"0"`; a bare `NUMBER` produces no scale at
all (`none`); and `some "0"` is distinct from `none`. -/
theorem c9_number_single_arg :
    (∀ ds : Chars, ds ≠ [] → (∀ c ∈ ds, isDigitCh c = true) →
      parseColDef ((("NUMBER(").data) ++ ds ++ ([')'])) =
        some { not_null := false, type? := some (("NUMBER").data),
               precision? := some ds, scale? := some (("0").data) }) ∧
    parseColDef (("NUMBER").data) =
      some { not_null := false, type? := some (("NUMBER").data) } ∧
    (some (("0").data) : Option Chars) ≠ none := by
  refine ⟨?_, by decide, by simp⟩
  intro ds hne hds
  have hdigit_mem : ∀ c ∈ ('U' :: 'M' :: 'B' :: 'E' :: 'R' :: '(' :: []) ++ (ds ++ [')']),
      upChar c ≠ 'N' := by
    intro c hc
    rcases List.mem_append.mp hc with hc | hc
    · fin_cases hc <;> decide
    · rcases List.mem_append.mp hc with hc | hc
      · rw [digit_upChar (hds c hc)]
        exact digit_ne (hds c hc) (by decide)
      · rcases List.mem_singleton.mp hc with rfl
        decide
  have e1 : ((("NUMBER(").data) ++ ds ++ ([')'])) = (("NUMBER(").data) ++ (ds ++ [')']) := by
    simp
  have e2 : (("NUMBER(").data) ++ (ds ++ [')']) =
      'N' :: (('U' :: 'M' :: 'B' :: 'E' :: 'R' :: '(' :: []) ++ (ds ++ [')'])) := rfl
  have hlstrip : lstrip ((("NUMBER(").data) ++ ds ++ ([')'])) =
      (("NUMBER(").data) ++ ds ++ ([')']) := by
    rw [e1, e2]
    exact lstrip_cons_nonws (by decide) _
  have hclean : rstripComma (strip ((("NUMBER(").data) ++ ds ++ ([')']))) =
      (("NUMBER(").data) ++ ds ++ ([')']) := by
    unfold strip
    rw [hlstrip,
        show ((("NUMBER(").data) ++ ds ++ ([')'])) =
          ((("NUMBER(").data) ++ ds) ++ ')' :: [] from by simp,
        rstrip_append_nonws _ (by decide) [],
        show rstrip ([] : Chars) = [] from rfl,
        rstripComma_append_nonc _ (by decide) [],
        show rstripComma ([] : Chars) = [] from rfl]
  have hupper : upper ((("NUMBER(").data) ++ ds ++ ([')'])) =
      (("NUMBER(").data) ++ ds ++ ([')']) := by
    unfold upper
    rw [List.map_append, List.map_append, map_upChar_digits hds]
    rfl
  have hnotnull : containsSub ((("NUMBER(").data) ++ ds ++ ([')'])) (("NOT NULL").data)
      = false := by
    rw [e1, e2, containsSub_cons]
    have h1 : (("NOT NULL").data).isPrefixOf
        ('N' :: (('U' :: 'M' :: 'B' :: 'E' :: 'R' :: '(' :: []) ++ (ds ++ [')']))) = false := by
      simp [List.isPrefixOf]
    have h2 : containsSub (('U' :: 'M' :: 'B' :: 'E' :: 'R' :: '(' :: []) ++ (ds ++ [')']))
        (("NOT NULL").data) = false := by
      apply @containsSub_false_of_head_notMem _ 'N'
      · rfl
      · intro c hc he
        subst he
        exact hdigit_mem 'N' hc (by decide)
    rw [h1, h2]
    rfl
  have htype : List.takeWhile (fun c => !isWs c) ((("NUMBER(").data) ++ ds ++ ([')'])) =
      (("NUMBER(").data) ++ ds ++ ([')']) := by
    rw [List.takeWhile_eq_self_iff]
    intro x hx
    rw [e1, e2] at hx
    rcases List.mem_cons.mp hx with rfl | hx
    · decide
    · rcases List.mem_append.mp hx with hx | hx
      · fin_cases hx <;> decide
      · rcases List.mem_append.mp hx with hx | hx
        · rw [digit_not_ws (hds x hx)]; rfl
        · rcases List.mem_singleton.mp hx with rfl; decide
  have hvc : (("VARCHAR2").data).isPrefixOf ((("NUMBER(").data) ++ ds ++ ([')'])) = false := by
    rw [e1, e2]
    simp [List.isPrefixOf]
  have hnum : (("NUMBER").data).isPrefixOf ((("NUMBER(").data) ++ ds ++ ([')'])) = true := by
    rw [show ((("NUMBER(").data) ++ ds ++ ([')'])) =
      (("NUMBER").data) ++ ('(' :: (ds ++ [')'])) from by simp]
    exact isPrefixOf_append_self _ _
  have hdrop7 : ((("NUMBER(").data) ++ ds ++ ([')'])).drop 7 = ds ++ [')'] := by
    rw [e1]
    exact List.drop_left' (by rfl)
  have htk := takeWhile_append_all (p := isDigitCh) (c := ')') hds (by decide) ([] : Chars)
  have hps : searchNumberPS ((("NUMBER(").data) ++ ds ++ ([')'])) = none := by
    have hat : numberPSAt ((("NUMBER(").data) ++ ds ++ ([')'])) = none := by
      simp only [numberPSAt]
      rw [if_pos (by rw [e1]; exact isPrefixOfCI_self_append _ _), hdrop7, htk.1, htk.2,
          if_neg (by simpa using hne)]
      rfl
    rw [e1, e2]
    rw [e1, e2] at hat
    simp only [searchNumberPS, hat]
    apply searchNumberPS_none
    intro c hc
    apply hdigit_mem
    simp only [List.append_eq, List.nil_append, List.mem_append, List.mem_cons,
      List.mem_singleton] at hc ⊢
    tauto
  have hp : searchNumberP ((("NUMBER(").data) ++ ds ++ ([')'])) = some ds := by
    have hat : numberPAt ((("NUMBER(").data) ++ ds ++ ([')'])) = some ds := by
      simp only [numberPAt]
      rw [if_pos (by rw [e1]; exact isPrefixOfCI_self_append _ _), hdrop7, htk.1, htk.2,
          if_neg (by simpa using hne)]
      rfl
    rw [e1, e2]
    rw [e1, e2] at hat
    simp only [searchNumberP, hat]
  simp only [parseColDef, hclean, hupper, hnotnull, htype, hvc, hnum, hps, hp]
  rw [if_neg (by rw [e1, e2]; simp)]
  simp

/-- Concrete instantiation of `c9_number_single_arg` at `NUMBER(5)`. -/
theorem c9_witness :
    ((("5").data ≠ []) ∧ (∀ c ∈ ("5").data, isDigitCh c = true)) ∧
    parseColDef ((("NUMBER(").data) ++ ("5").data ++ ([')'])) =
      some { not_null := false, type? := some (("NUMBER").data),
             precision? := some (("5").data), scale? := some (("0").data) } :=
  ⟨⟨by decide, by decide⟩,
    c9_number_single_arg.1 (("5").data) (by decide) (by decide)⟩

/-! ### The element-tree model

`main.py` reads and writes its metadata through `xml.etree.ElementTree`.
The tree shape ET exposes is: an element has a tag, attributes, `.text`
(character data before the first child), children, and `.tail` (character
data after the element's end tag, owned by the element itself).  We model
one namespace situation — the one SXML documents are in — where the root
declares the `http://xmlns.oracle.com/ku` default namespace and no
descendant re-declares anything; a `ku:`-qualified lookup then matches an
element iff that declaration is present.  Attribute text is kept raw (the
characters between the tag name and the `>`), which coincides with ET for
documents whose attributes are already in ET's canonical serialization
(double quotes, single spaces). -/

inductive XNode where
  | elem (tag : Chars) (attrs : Chars) (text : Option Chars)
      (children : List XNode) (tail : Option Chars)

def XNode.tag : XNode → Chars
  | .elem t _ _ _ _ => t

def XNode.attrs : XNode → Chars
  | .elem _ a _ _ _ => a

def XNode.text : XNode → Option Chars
  | .elem _ _ x _ _ => x

def XNode.children : XNode → List XNode
  | .elem _ _ _ cs _ => cs

def XNode.tail : XNode → Option Chars
  | .elem _ _ _ _ tl => tl

def XNode.withTail : XNode → Option Chars → XNode
  | .elem t a x cs _, tl => .elem t a x cs tl

def withChildren : XNode → List XNode → XNode
  | .elem t a x _ tl, cs => .elem t a x cs tl

def optStr : Option Chars → Chars
  | none => []
  | some t => t

mutual
/-- `ET.tostring(elem, encoding='unicode')` with the default namespace
registered: plain tags, raw attributes, `<tag attrs />` when the element
has neither text nor children, tails emitted after each end tag. -/
def serializeElem : XNode → Chars
  | .elem tag attrs text children tail =>
    match text, children with
    | none, [] => '<' :: (tag ++ attrs ++ (" />").data) ++ optStr tail
    | _, _ =>
      '<' :: (tag ++ attrs ++ ['>']) ++ optStr text ++ serializeList children ++
        ('<' :: '/' :: (tag ++ ['>'])) ++ optStr tail
def serializeList : List XNode → Chars
  | [] => []
  | n :: rest => serializeElem n ++ serializeList rest
end

/-- XML name characters (ASCII subset; enough for SXML tags). -/
def isNameCh (c : Char) : Bool :=
  ('A' ≤ c && c ≤ 'Z') || ('a' ≤ c && c ≤ 'z') || ('0' ≤ c && c ≤ '9') ||
    c = '_' || c = '-' || c = '.' || c = ':'

/-- Parse the attribute region after a tag name: raw text up to `>`,
recognizing the self-closing `/`; trailing whitespace is dropped (ET's
canonical form never has any). -/
def parseAttrs (s : Chars) : Option (Chars × Bool × Chars) :=
  let a := s.takeWhile (fun c => c ≠ '>')
  match s.dropWhile (fun c => c ≠ '>') with
  | '>' :: rest =>
    if a.getLast? = some '/' then some (rstrip a.dropLast, true, rest)
    else some (rstrip a, false, rest)
  | _ => none

mutual
/-- Parse one element; `s` starts right after the opening `<`. -/
def parseElement : Nat → Chars → Option (XNode × Chars)
  | 0, _ => none
  | fuel + 1, s =>
    let tag := s.takeWhile isNameCh
    if tag = [] then none
    else
      match parseAttrs (s.dropWhile isNameCh) with
      | none => none
      | some (attrs, true, rest) => some (.elem tag attrs none [] none, rest)
      | some (attrs, false, rest) =>
        match parseContent fuel tag rest with
        | none => none
        | some (text, children, r2) => some (.elem tag attrs text children none, r2)

/-- Parse the content of an open element with tag `t` up to and including
its closing tag; returns (text before first child, children with their
tails, remainder). -/
def parseContent : Nat → Chars → Chars → Option (Option Chars × List XNode × Chars)
  | 0, _, _ => none
  | fuel + 1, t, s =>
    let tx := s.takeWhile (fun c => c ≠ '<')
    let txt : Option Chars := if tx = [] then none else some tx
    match s.dropWhile (fun c => c ≠ '<') with
    | '<' :: '/' :: r2 =>
      if (r2.takeWhile isNameCh) = t then
        match (r2.dropWhile isNameCh).dropWhile isWs with
        | '>' :: r3 => some (txt, [], r3)
        | _ => none
      else none
    | '<' :: r2 =>
      match parseElement fuel r2 with
      | none => none
      | some (child, r3) =>
        match parseContent fuel t r3 with
        | none => none
        | some (ctext, siblings, r4) => some (txt, (child.withTail ctext) :: siblings, r4)
    | _ => none
end

/-- `ET.fromstring`: optional leading whitespace and XML declaration, one
root element, optional trailing whitespace. -/
def parseXml (s : Chars) : Option XNode :=
  let s1 := s.dropWhile isWs
  let s2 := if (("<?xml").data).isPrefixOf s1 then
      match scanToQgt (s1.drop 5) with
      | some r => r.dropWhile isWs
      | none => s1
    else s1
  match s2 with
  | '<' :: r =>
    match parseElement (s.length + 1) r with
    | some (root, rem) => if rem.dropWhile isWs = [] then some root else none
    | none => none
  | _ => none

/-- Whether the root carries the SXML default-namespace declaration the
`ku:`-qualified lookups of main.py resolve against. -/
def hasKuNs (root : XNode) : Bool :=
  containsSub root.attrs (("xmlns=\"http://xmlns.oracle.com/ku\"").data)

def findChild (tag : Chars) (n : XNode) : Option XNode :=
  (n.children.filter (fun c => c.tag == tag)).head?

mutual
/-- First match of the path `RELATIONAL_TABLE/COL_LIST` among the
descendants of a node, in document order: the first `COL_LIST` child of
the first `RELATIONAL_TABLE` descendant possessing one. -/
def findCLNode : XNode → Option XNode
  | .elem t _ _ cs _ =>
    if t == ("RELATIONAL_TABLE").data && cs.any (fun c => c.tag == ("COL_LIST").data) then
      (cs.filter (fun c => c.tag == ("COL_LIST").data)).head?
    else findCLList cs
def findCLList : List XNode → Option XNode
  | [] => none
  | c :: rest =>
    match findCLNode c with
    | some x => some x
    | none => findCLList rest
end

/-- `root.find('.//ku:RELATIONAL_TABLE/ku:COL_LIST', ns)`. -/
def findColList (root : XNode) : Option XNode :=
  if hasKuNs root then findCLList root.children else none

def replaceFirstCLChild (items : List XNode) : List XNode → List XNode
  | [] => []
  | c :: rest =>
    if c.tag == ("COL_LIST").data then withChildren c items :: rest
    else c :: replaceFirstCLChild items rest

mutual
/-- In-place mutation of the column list (clear and re-append children),
as a functional update of the node `findColList` locates. -/
def updNode (items : List XNode) : XNode → XNode × Bool
  | .elem t a x cs tl =>
    if t == ("RELATIONAL_TABLE").data && cs.any (fun c => c.tag == ("COL_LIST").data) then
      (.elem t a x (replaceFirstCLChild items cs) tl, true)
    else
      match updList items cs with
      | (cs2, done) => (.elem t a x cs2 tl, done)
def updList (items : List XNode) : List XNode → List XNode × Bool
  | [] => ([], false)
  | c :: rest =>
    match updNode items c with
    | (c2, true) => (c2 :: rest, true)
    | (_, false) =>
      match updList items rest with
      | (rest2, d2) => (c :: rest2, d2)
end

def updateColList (root : XNode) (items : List XNode) : XNode :=
  match root with
  | .elem t a x cs tl => .elem t a x ((updList items cs).1) tl

/-! ### The SXML half of compare_ddl_and_sxml_columns (lines 285-339) -/

/-- The attribute record read from one `COL_LIST_ITEM` (lines 294-300):
`findtext` with default `''` for the datatype and default `None` for the
others; an element that exists but has no text yields `''` in every
case. -/
structure SxmlAttrs where
  type : Chars
  length? : Option Chars
  precision? : Option Chars
  scale? : Option Chars
  not_null : Bool
deriving DecidableEq

def findtextOpt (tag : Chars) (it : XNode) : Option Chars :=
  match findChild tag it with
  | none => none
  | some el => some (optStr el.text)

def sxmlAttrsOfItem (it : XNode) : SxmlAttrs :=
  { type := optStr ((findChild (("DATATYPE").data) it).map (fun el => optStr el.text))
    length? := findtextOpt (("LENGTH").data) it
    precision? := findtextOpt (("PRECISION").data) it
    scale? := findtextOpt (("SCALE").data) it
    not_null := (findChild (("NOT_NULL").data) it).isSome }

/-- The `sxml_cols` dict (lines 289-300): items of the located column
list, keyed by the stripped upper-cased name text; items without a `NAME`
child, or whose name text is missing or empty (Python truthiness), are
skipped. -/
def sxmlColsOf (root : XNode) : List (Chars × SxmlAttrs) :=
  match findColList root with
  | none => []
  | some cl =>
    (cl.children.filter (fun c => c.tag == ("COL_LIST_ITEM").data)).foldl
      (fun acc it =>
        match findChild (("NAME").data) it with
        | some nm =>
          match nm.text with
          | some t => if t = [] then acc else upsert (upper (strip t)) (sxmlAttrsOfItem it) acc
          | none => acc
        | none => acc) []

def pyOptStr : Option Chars → Chars
  | none => ("None").data
  | some s => s

def pyBool : Bool → Chars
  | true => ("True").data
  | false => ("False").data

/-- The per-column detail strings of lines 322-333, in their fixed order. -/
def mkDetails (d : DdlAttrs) (sx : SxmlAttrs) : List Chars :=
  (if d.type? ≠ some sx.type then
    [("Type mismatch: DDL='").data ++ pyOptStr d.type? ++ ("', SXML='").data ++
      sx.type ++ ("'").data] else []) ++
  (if d.length? ≠ sx.length? then
    [("Length mismatch: DDL='").data ++ pyOptStr d.length? ++ ("', SXML='").data ++
      pyOptStr sx.length? ++ ("'").data] else []) ++
  (if d.precision? ≠ sx.precision? then
    [("Precision mismatch: DDL='").data ++ pyOptStr d.precision? ++ ("', SXML='").data ++
      pyOptStr sx.precision? ++ ("'").data] else []) ++
  (if d.scale? ≠ sx.scale? then
    [("Scale mismatch: DDL='").data ++ pyOptStr d.scale? ++ ("', SXML='").data ++
      pyOptStr sx.scale? ++ ("'").data] else []) ++
  (if d.not_null ≠ sx.not_null then
    [("NOT NULL mismatch: DDL='").data ++ pyBool d.not_null ++ ("', SXML='").data ++
      pyBool sx.not_null ++ ("'").data] else [])

structure Mismatch where
  column : Chars
  details : List Chars
deriving DecidableEq

structure CompareRes where
  inDdl : List Chars
  inSxml : List Chars
  mismatches : List Mismatch
  parseFailed : Bool
deriving DecidableEq

/-- compare_ddl_and_sxml_columns (lines 243-339).  The human-readable
message list is not modelled; the two difference sets are kept as lists
in dictionary order and the common columns are visited in DDL-dictionary
order (Python iterates a `set`, whose order is unspecified and on which
the script relies only through membership).  `none` models the uncaught
IndexError of the DDL half. -/
def compareCols (parse : Chars → Option XNode) (ddl s : Chars) : Option CompareRes :=
  match ddlColsOf ddl with
  | none => none
  | some dcols =>
    match parse s with
    | none => some { inDdl := [], inSxml := [], mismatches := [], parseFailed := true }
    | some root =>
      let scols := sxmlColsOf root
      let dnames := dcols.map Prod.fst
      let snames := scols.map Prod.fst
      let mismatches := (dnames.filter (fun n => snames.contains n)).filterMap (fun n =>
        match lookupD n dcols, lookupD n scols with
        | some d, some sx =>
          let ds := mkDetails d sx
          if ds = [] then none else some { column := n, details := ds }
        | _, _ => none)
      some { inDdl := dnames.filter (fun n => !(snames.contains n))
             inSxml := snames.filter (fun n => !(dnames.contains n))
             mismatches := mismatches
             parseFailed := false }

/-! ### add_missing_columns_to_sxml (lines 185-240) -/

/-- Match of `^\s*"NAME"\s+(.*)` (for the escaped literal `NAME`,
IGNORECASE) at a line-start position; the captured definition. -/
def colDefForAt (colName : Chars) (s : Chars) : Option Chars :=
  match s.dropWhile isWs with
  | '"' :: r2 =>
    if isPrefixOfCI colName r2 then
      match r2.drop colName.length with
      | '"' :: r4 =>
        if r4.takeWhile isWs = [] then none
        else some ((r4.dropWhile isWs).takeWhile (fun c => c ≠ '\n'))
      | _ => none
    else none
  | _ => none

/-- `re.search(r'^\s*"' + re.escape(col_name) + r'"\s+(.*)', block, re.M | re.I)`. -/
def searchColDefFor (colName : Chars) : Nat → Bool → Chars → Option Chars
  | 0, _, _ => none
  | _ + 1, _, [] => none
  | fuel + 1, bol, c :: r =>
    if bol then
      match colDefForAt colName (c :: r) with
      | some d => some d
      | none => searchColDefFor colName fuel (c = '\n') r
    else searchColDefFor colName fuel (c = '\n') r

/-- The `item_xml` synthesis for one missing column (lines 199-231);
`colDef` is the captured definition after `.strip().rstrip(',')`. -/
def synthColItem (colName colDef : Chars) : Chars :=
  let tdu := upper colDef
  (("      <COL_LIST_ITEM>\n        <NAME>").data) ++ colName ++ (("</NAME>\n").data) ++
  (if (("VARCHAR2").data).isPrefixOf tdu then
    (("        <DATATYPE>VARCHAR2</DATATYPE>\n").data) ++
    (match searchLParenDigits colDef with
     | some l => (("        <LENGTH>").data) ++ l ++ (("</LENGTH>\n").data)
     | none => []) ++
    (("        <CHAR_SEMANTICS></CHAR_SEMANTICS>\n        <COLLATE_NAME>USING_NLS_COMP</COLLATE_NAME>\n").data)
  else if (("NUMBER").data).isPrefixOf tdu then
    (("        <DATATYPE>NUMBER</DATATYPE>\n").data) ++
    (match searchNumberPS tdu with
     | some (p, sc) =>
       (("        <PRECISION>").data) ++ p ++ (("</PRECISION>\n").data) ++
       (("        <SCALE>").data) ++ sc ++ (("</SCALE>\n").data)
     | none => [])
  else if (("DATE").data).isPrefixOf tdu then
    (("        <DATATYPE>DATE</DATATYPE>\n").data)
  else if (("CLOB").data).isPrefixOf tdu then
    (("        <DATATYPE>CLOB</DATATYPE>\n        <COLLATE_NAME>USING_NLS_COMP</COLLATE_NAME>\n").data)
  else if (("BLOB").data).isPrefixOf tdu then
    (("        <DATATYPE>BLOB</DATATYPE>\n").data)
  else if (("TIMESTAMP").data).isPrefixOf tdu then
    (("        <DATATYPE>TIMESTAMP_WITH_LOCAL_TIMEZONE</DATATYPE>\n").data) ++
    (match searchParenDigits colDef with
     | some sc => (("        <SCALE>").data) ++ sc ++ (("</SCALE>\n").data)
     | none => [])
  else []) ++
  (if containsSub tdu (("NOT NULL").data) then (("        <NOT_NULL></NOT_NULL>\n").data)
   else []) ++
  (("      </COL_LIST_ITEM>\n").data)

/-- add_missing_columns_to_sxml (lines 185-240); `missing` is iterated in
the order of our `inDdl` list (the source iterates a Python set, order
unspecified). -/
def add_missing_columns_to_sxml (missing : List Chars) (ddl s : Chars) : Chars :=
  match createColumnsBlock ddl with
  | none => s
  | some block =>
    let items := missing.filterMap (fun nm =>
      (searchColDefFor nm (block.length + 1) true block).map
        (fun d => synthColItem nm (rstripComma (strip d))))
    if items = [] then s
    else
      match findSub s (("</COL_LIST>").data) with
      | some i => s.take i ++ items.foldr (· ++ ·) [] ++ s.drop i
      | none => s

/-! ### fix_identity_column (lines 342-371) -/

/-- main.py lines 342-343: the pluggable start-value lookup; the default
policy always answers 1. -/
def get_start_with_value (schema table : Chars) : Nat := 1

/-- Python `str.count` (non-overlapping occurrences). -/
def countSubAux : Nat → Chars → Chars → Nat
  | 0, _, _ => 0
  | fuel + 1, s, pat =>
    match findSub s pat with
    | none => 0
    | some i => 1 + countSubAux fuel (s.drop (i + pat.length)) pat

def countSub (s pat : Chars) : Nat := countSubAux s.length s pat

/-- The lazy group of `OPEN(.*?)CLOSE` without DOTALL: characters up to
the first occurrence of the closing literal, failing at a newline. -/
def lazyGroup (closeT : Chars) : Chars → Option Chars
  | [] => none
  | c :: r =>
    if closeT.isPrefixOf (c :: r) then some []
    else if c = '\n' then none
    else (lazyGroup closeT r).map (fun g => c :: g)

/-- `re.search(r'OPEN(.*?)CLOSE', s)`: group 1 of the leftmost match. -/
def searchTagged (openT closeT : Chars) : Chars → Option Chars
  | [] => none
  | c :: r =>
    match (if openT.isPrefixOf (c :: r) then lazyGroup closeT ((c :: r).drop openT.length)
           else none) with
    | some g => some g
    | none => searchTagged openT closeT r

def findSubFrom (s pat : Chars) (i : Nat) : Option Nat :=
  (findSub (s.drop i) pat).map (· + i)

/-- The synthesized default generator block (line 356), with the start
value obtained from `get_start_with_value`. -/
def identityTags (schema table : Chars) : Chars :=
  (("<GENERATION>DEFAULT</GENERATION><ON_NULL></ON_NULL><START_WITH>").data) ++
  ((Nat.repr (get_start_with_value schema table)).data) ++
  (("</START_WITH><INCREMENT>1</INCREMENT><MINVALUE>1</MINVALUE><MAXVALUE>9999999999999999999999999999</MAXVALUE><CACHE>20</CACHE></IDENTITY_COLUMN>").data)

/-- fix_identity_column (lines 345-371), with the `ET.fromstring` re-parse
check abstracted into `parseOK`. -/
def fix_identity_column (parseOK : Chars → Bool) (s : Chars) : Option Chars × Option Chars :=
  if countSub s (("<IDENTITY_COLUMN>").data) > countSub s (("</IDENTITY_COLUMN>").data) then
    match searchTagged (("<SCHEMA>").data) (("</SCHEMA>").data) s,
          searchTagged (("<NAME>").data) (("</NAME>").data) s with
    | some schema, some table =>
      match findSub s (("<IDENTITY_COLUMN>").data) with
      | some start_pos =>
        match findSubFrom s (("</SCHEMA>").data) start_pos with
        | some p =>
          let ip := p + (("</SCHEMA>").data).length
          let corrected := s.take ip ++ identityTags schema table ++ s.drop ip
          if parseOK corrected then
            (some corrected, some (("File updated. Added missing </IDENTITY_COLUMN> tag.").data))
          else (none, some (("SXML still invalid after IDENTITY_COLUMN fix.").data))
        | none => (none, none)
      | none => (none, none)
    | _, _ => (none, none)
  else (none, none)

/-! ### fix_identity_not_null (lines 373-382) -/

/-- The lazy DOTALL part `.*?` up to the closing literal. -/
def lazyUpTo (closeT : Chars) : Chars → Option Chars
  | [] => none
  | c :: r =>
    if closeT.isPrefixOf (c :: r) then some []
    else (lazyUpTo closeT r).map (fun g => c :: g)

/-- Match of `(<COL_LIST_ITEM>\s*<NAME>ID</NAME>.*?)(</COL_LIST_ITEM>)`
(DOTALL) at the head of `s`: group 1. -/
def idBlockAt (s : Chars) : Option Chars :=
  if (("<COL_LIST_ITEM>").data).isPrefixOf s then
    let r := s.drop 15
    let w := r.takeWhile isWs
    let r2 := r.dropWhile isWs
    if (("<NAME>ID</NAME>").data).isPrefixOf r2 then
      match lazyUpTo (("</COL_LIST_ITEM>").data) (r2.drop 15) with
      | some mid => some ((("<COL_LIST_ITEM>").data) ++ w ++ (("<NAME>ID</NAME>").data) ++ mid)
      | none => none
    else none
  else none

def searchIdBlock : Chars → Option Chars
  | [] => none
  | c :: r =>
    match idBlockAt (c :: r) with
    | some g => some g
    | none => searchIdBlock r

/-- The insertion point `id_col_block.find('</IDENTITY_COLUMN>') + 18`;
Python `find` yields -1 on a miss, so the point degenerates to 17. -/
def notNullInsertionPoint (blk : Chars) : Nat :=
  match findSub blk (("</IDENTITY_COLUMN>").data) with
  | some i => i + 18
  | none => 17

/-- fix_identity_not_null (lines 373-382). -/
def fix_identity_not_null (s : Chars) : Option (Chars × Chars) :=
  match searchIdBlock s with
  | none => none
  | some blk =>
    if containsSub blk (("<NOT_NULL/>").data) = false ∧
        containsSub blk (("<IDENTITY_COLUMN>").data) = true then
      let ip := notNullInsertionPoint blk
      let corrected := blk.take ip ++ (("\n        <NOT_NULL/>").data) ++ blk.drop ip
      some (replaceAllSub s blk corrected, ("Added missing NOT NULL tag to ID column.").data)
    else none

/-! ### reorder_sxml_columns_to_match_ddl (lines 119-178) -/

def xmlDeclPrefix : Chars := (("<?xml version=\"1.0\" ?>\n").data)

def nameTextOf (it : XNode) : Option Chars :=
  (findChild (("NAME").data) it).bind XNode.text

/-- The `COL_LIST_ITEM` children that have a `NAME` child (the filter of
the comprehensions at lines 145-151). -/
def namedItems (cl : XNode) : List XNode :=
  (cl.children.filter (fun c => c.tag == ("COL_LIST_ITEM").data)).filter
    (fun it => (findChild (("NAME").data) it).isSome)

def itemKey (it : XNode) : Chars := upper (strip (optStr (nameTextOf it)))

/-- Lines 162-168: the rebuilt child list — DDL-ordered mapped items, then
the map's remaining (metadata-only) items in insertion order. -/
def rebuildItems (dCols : List Chars) (map : List (Chars × XNode)) : List XNode :=
  (dCols.filterMap (fun c => lookupD c map)) ++
    ((map.filter (fun p => !(dCols.contains p.1))).map Prod.snd)

/-- reorder_sxml_columns_to_match_ddl (lines 119-178); an `ET.ParseError`
or the `AttributeError` raised when a `NAME` element has no text is
caught and yields the untouched no-op result. -/
def reorder_sxml_columns_to_match_ddl (parse : Chars → Option XNode)
    (tostring : XNode → Chars) (ddl s : Chars) :
    Chars × Bool × List Chars × List Chars :=
  let dCols := ddlOrderedCols ddl
  if dCols = [] then (s, false, [], [])
  else
    match parse s with
    | none => (s, false, [], [])
    | some root =>
      match findColList root with
      | none => (s, false, [], [])
      | some cl =>
        if (namedItems cl).any (fun it => (nameTextOf it).isNone) then (s, false, [], [])
        else
          let map := (namedItems cl).foldl (fun acc it => upsert (itemKey it) it acc) []
          let order := (namedItems cl).map itemKey
          if dCols = order then (s, false, [], [])
          else
            let newRoot := updateColList root (rebuildItems dCols map)
            (xmlDeclPrefix ++ tostring newRoot, true, order, dCols)

/-! ### The per-file reconciliation core (process_single_file lines 496-553)

File discovery, the JSON envelope, log generation and the git diff are
out of scope; this is the pass applied to the extracted DDL text and
metadata string.  `none` models the abort paths (unrepairable metadata,
or the uncaught IndexError inside the comparison). -/

inductive Fix where
  | identityRepair
  | addMissing (cols : List Chars)
  | idNotNull
  | resetStart (old : Chars)
  | reorderFix (oldOrder newOrder : List Chars)
deriving DecidableEq

structure ReconcileResult where
  corrected : Chars
  fixes : List Fix
  residualInDdl : List Chars
  residualInSxml : List Chars
  residualMismatches : List Mismatch
  residualParseFailed : Bool
  /-- The metadata string as handed to the reorder step (exposed for
  specification purposes only). -/
  beforeReorder : Chars
deriving DecidableEq

/-- Whether a mismatch record triggers the ID fixup (line 522):
`m['column'] == 'ID' and "NOT NULL mismatch" in ''.join(m['details'])`. -/
def isIdNotNullMismatch (m : Mismatch) : Bool :=
  m.column == ("ID").data &&
    containsSub (m.details.foldr (· ++ ·) []) (("NOT NULL mismatch").data)

def reconcile (parse : Chars → Option XNode) (tostring : XNode → Chars)
    (ddl s0 : Chars) (flag : Bool) : Option ReconcileResult :=
  let entry : Option (Chars × List Fix) :=
    if (parse s0).isSome then some (s0, [])
    else
      match fix_identity_column (fun t => (parse t).isSome) s0 with
      | (some s, _) => some (s, [Fix.identityRepair])
      | (none, _) => none
  match entry with
  | none => none
  | some (sA, fixes0) =>
    match compareCols parse ddl sA with
    | none => none
    | some c0 =>
      let (s1, fixes1) :=
        if c0.inDdl = [] then (sA, fixes0)
        else (add_missing_columns_to_sxml c0.inDdl ddl sA, fixes0 ++ [Fix.addMissing c0.inDdl])
      let (s2, fixes2) :=
        if c0.mismatches.any isIdNotNullMismatch then
          match fix_identity_not_null s1 with
          | some (t, _) => (t, fixes1 ++ [Fix.idNotNull])
          | none => (s1, fixes1)
        else (s1, fixes1)
      let (s3, fixes3) :=
        if flag then
          match reset_start_with_value s2 with
          | (t, true, v) => (t, fixes2 ++ [Fix.resetStart (v.getD [])])
          | (t, false, _) => (t, fixes2)
        else (s2, fixes2)
      let (s4, fixes4) :=
        match reorder_sxml_columns_to_match_ddl parse tostring ddl s3 with
        | (t, true, oldO, newO) => (t, fixes3 ++ [Fix.reorderFix oldO newO])
        | (t, false, _, _) => (t, fixes3)
      match compareCols parse ddl s4 with
      | none => none
      | some cf =>
        some { corrected := s4, fixes := fixes4, residualInDdl := cf.inDdl,
               residualInSxml := cf.inSxml, residualMismatches := cf.mismatches,
               residualParseFailed := cf.parseFailed, beforeReorder := s3 }

/-! ### Decidable equality of `XNode` -/

mutual

def XNode.beq : XNode → XNode → Bool
  | .elem t1 a1 x1 c1 l1, .elem t2 a2 x2 c2 l2 =>
    t1 == t2 && a1 == a2 && x1 == x2 && XNode.beqList c1 c2 && l1 == l2

def XNode.beqList : List XNode → List XNode → Bool
  | [], [] => true
  | x :: xs, y :: ys => XNode.beq x y && XNode.beqList xs ys
  | _, _ => false

end

mutual

theorem XNode.beq_iff : ∀ a b : XNode, (XNode.beq a b = true) ↔ a = b
  | .elem t1 a1 x1 c1 l1, .elem t2 a2 x2 c2 l2 => by
    simp only [XNode.beq, Bool.and_eq_true, beq_iff_eq, XNode.beqList_iff c1 c2,
      XNode.elem.injEq]
    tauto

theorem XNode.beqList_iff : ∀ as bs : List XNode, (XNode.beqList as bs = true) ↔ as = bs
  | [], [] => by simp [XNode.beqList]
  | [], _ :: _ => by simp [XNode.beqList]
  | _ :: _, [] => by simp [XNode.beqList]
  | x :: xs, y :: ys => by
    simp only [XNode.beqList, Bool.and_eq_true, XNode.beq_iff x y,
      XNode.beqList_iff xs ys, List.cons.injEq]

end

instance : DecidableEq XNode := fun a b =>
  decidable_of_iff (XNode.beq a b = true) (XNode.beq_iff a b)

/-! ### Substring lemmas -/

theorem containsSub_of_isPrefixOf {s pat : Chars} (h : pat.isPrefixOf s = true) :
    containsSub s pat = true := by
  unfold containsSub findSub
  rw [findSubAux.eq_def]
  simp [h]

theorem containsSub_append_right {y pat : Chars} (x : Chars)
    (h : containsSub y pat = true) : containsSub (x ++ y) pat = true := by
  induction x with
  | nil => simpa using h
  | cons c r ih =>
    rw [List.cons_append, containsSub_cons, ih, Bool.or_true]

theorem isPrefixOf_append_mono {pat d : Chars} (y : Chars)
    (h : pat.isPrefixOf d = true) : pat.isPrefixOf (d ++ y) = true := by
  rw [List.isPrefixOf_iff_prefix] at h ⊢
  exact h.trans (List.prefix_append d y)

theorem containsSub_join_of_mem {L : List Chars} {t pat : Chars} (ht : t ∈ L)
    (hp : pat.isPrefixOf t = true) :
    containsSub (L.foldr (· ++ ·) []) pat = true := by
  induction L with
  | nil => cases ht
  | cons d rest ih =>
    rcases List.mem_cons.mp ht with h | h
    · subst h
      exact containsSub_of_isPrefixOf (isPrefixOf_append_mono _ hp)
    · exact containsSub_append_right d (ih h)

/-! ### Lemmas about `upsert` and the reorder fold -/

theorem upsert_self_mem (k : Chars) (v : α) :
    ∀ l : List (Chars × α), (k, v) ∈ upsert k v l := by
  intro l
  induction l with
  | nil => exact List.mem_singleton.mpr rfl
  | cons p rest ih =>
    obtain ⟨k2, v2⟩ := p
    show (k, v) ∈ (if k2 = k then (k2, v) :: rest else (k2, v2) :: upsert k v rest)
    by_cases h : k2 = k
    · subst h
      rw [if_pos rfl]
      exact List.mem_cons_self _ _
    · rw [if_neg h]
      exact List.mem_cons_of_mem _ ih

theorem upsert_mem_of_ne {p : Chars × α} {l : List (Chars × α)} (k : Chars) (v : α)
    (hp : p ∈ l) (hne : p.1 ≠ k) : p ∈ upsert k v l := by
  induction l with
  | nil => cases hp
  | cons q rest ih =>
    obtain ⟨k2, v2⟩ := q
    show p ∈ (if k2 = k then (k2, v) :: rest else (k2, v2) :: upsert k v rest)
    by_cases h : k2 = k
    · subst h
      rw [if_pos rfl]
      rcases List.mem_cons.mp hp with h2 | h2
      · exact absurd (congrArg Prod.fst h2) hne
      · exact List.mem_cons_of_mem _ h2
    · rw [if_neg h]
      rcases List.mem_cons.mp hp with h2 | h2
      · exact h2 ▸ List.mem_cons_self _ _
      · exact List.mem_cons_of_mem _ (ih h2)

theorem foldl_upsert_preserve {p : Chars × XNode} :
    ∀ (items : List XNode) (acc : List (Chars × XNode)), p ∈ acc →
      (∀ j ∈ items, itemKey j ≠ p.1) →
      p ∈ items.foldl (fun a i => upsert (itemKey i) i a) acc := by
  intro items
  induction items with
  | nil => intro acc hp _; exact hp
  | cons i rest ih =>
    intro acc hp hne
    simp only [List.foldl_cons]
    exact ih _ (upsert_mem_of_ne _ _ hp (fun h => hne i (List.mem_cons_self i rest) h.symm))
      (fun j hj => hne j (List.mem_cons_of_mem i hj))

theorem foldl_upsert_mem {it : XNode} :
    ∀ (items : List XNode) (acc : List (Chars × XNode)), it ∈ items →
      (items.map itemKey).Nodup →
      (itemKey it, it) ∈ items.foldl (fun a i => upsert (itemKey i) i a) acc := by
  intro items
  induction items with
  | nil => intro _ h; cases h
  | cons i rest ih =>
    intro acc hit hnd
    rw [List.map_cons, List.nodup_cons] at hnd
    simp only [List.foldl_cons]
    rcases List.mem_cons.mp hit with h | h
    · subst h
      refine foldl_upsert_preserve rest _ (upsert_self_mem _ _ _) ?_
      intro j hj hkey
      exact hnd.1 (by
        rw [show itemKey it = itemKey j from hkey.symm]
        exact List.mem_map_of_mem itemKey hj)
    · exact ih _ h hnd.2

/-! ### Inversion lemmas for the pipeline steps -/

theorem compareCols_parse_some {parse : Chars → Option XNode} {ddl s : Chars}
    {c : CompareRes} (hc : compareCols parse ddl s = some c)
    (hpf : c.parseFailed = false) : ∃ root, parse s = some root := by
  unfold compareCols at hc
  cases hd : ddlColsOf ddl with
  | none => rw [hd] at hc; cases hc
  | some dcols =>
    rw [hd] at hc
    cases hp : parse s with
    | none =>
      rw [hp] at hc
      cases hc
      cases hpf
    | some root => exact ⟨root, rfl⟩

theorem reorder_flag_false {parse : Chars → Option XNode} {tostring : XNode → Chars}
    {ddl s : Chars}
    (h : (reorder_sxml_columns_to_match_ddl parse tostring ddl s).2.1 = false) :
    reorder_sxml_columns_to_match_ddl parse tostring ddl s = (s, false, [], []) := by
  unfold reorder_sxml_columns_to_match_ddl at h ⊢
  by_cases h1 : ddlOrderedCols ddl = []
  · simp only [if_pos h1]
  · simp only [if_neg h1] at h ⊢
    cases hp : parse s with
    | none => simp only [hp]
    | some root =>
      simp only [hp] at h ⊢
      cases hcl : findColList root with
      | none => simp only [hcl]
      | some cl =>
        simp only [hcl] at h ⊢
        by_cases h2 : (namedItems cl).any (fun it => (nameTextOf it).isNone) = true
        · simp only [if_pos h2]
        · simp only [if_neg h2] at h ⊢
          by_cases h3 : ddlOrderedCols ddl = (namedItems cl).map itemKey
          · simp only [if_pos h3]
          · simp only [if_neg h3] at h
            cases h

theorem reset_noop_of_sw {s : Chars}
    (h : searchStartWith s = none ∨ searchStartWith s = some (("1").data)) :
    reset_start_with_value s = (s, false, none) := by
  unfold reset_start_with_value
  rcases h with h | h
  · rw [h]
  · rw [h]
    simp

/-! ### Claim C4 -/

/-- C4, repair atomicity: whenever `fix_identity_column` returns a
document at all, that document passed the re-parse check, and it is the
original string with the synthesized generator block spliced in whole at
one point (after a `</SCHEMA>` tag), with the schema and table names
taken from the leftmost `<SCHEMA>…</SCHEMA>` and `<NAME>…</NAME>`
matches; on every failure path (unbalanced count not detected, markers
missing, insertion point missing, or re-parse failure) no document is
returned and the caller keeps the original content. -/
theorem c4_repair_atomicity (parseOK : Chars → Bool) (s t : Chars) (msg : Option Chars)
    (h : fix_identity_column parseOK s = (some t, msg)) :
    parseOK t = true ∧
    ∃ schema table ip,
      searchTagged (("<SCHEMA>").data) (("</SCHEMA>").data) s = some schema ∧
      searchTagged (("<NAME>").data) (("</NAME>").data) s = some table ∧
      t = s.take ip ++ identityTags schema table ++ s.drop ip := by
  unfold fix_identity_column at h
  split at h
  · split at h
    next schema table hsch hnm =>
      split at h
      next start_pos hsp =>
        split at h
        next p hp =>
          dsimp only at h
          split at h
          next hOK =>
            obtain ⟨h1, h2⟩ := Prod.mk.injEq .. ▸ h
            cases h1
            exact ⟨hOK, schema, table, p + (("</SCHEMA>").data).length, hsch, hnm, rfl⟩
          next hOK => cases h
        next => cases h
      next => cases h
    next => cases h
  · cases h

def c4s : Chars :=
  ("<TABLE xmlns=\"http://xmlns.oracle.com/ku\"><NAME>T</NAME><IDENTITY_COLUMN><SCHEMA>S</SCHEMA></TABLE>").data

def c4pOK : Chars → Bool := fun t => (parseXml t).isSome

def c4out : Chars :=
  ("<TABLE xmlns=\"http://xmlns.oracle.com/ku\"><NAME>T</NAME><IDENTITY_COLUMN><SCHEMA>S</SCHEMA><GENERATION>DEFAULT</GENERATION><ON_NULL></ON_NULL><START_WITH>1</START_WITH><INCREMENT>1</INCREMENT><MINVALUE>1</MINVALUE><MAXVALUE>9999999999999999999999999999</MAXVALUE><CACHE>20</CACHE></IDENTITY_COLUMN></TABLE>").data

set_option maxRecDepth 8000 in
theorem c4_witness :
    c4pOK c4out = true ∧
    ∃ schema table ip,
      searchTagged (("<SCHEMA>").data) (("</SCHEMA>").data) c4s = some schema ∧
      searchTagged (("<NAME>").data) (("</NAME>").data) c4s = some table ∧
      c4out = c4s.take ip ++ identityTags schema table ++ c4s.drop ip :=
  c4_repair_atomicity c4pOK c4s c4out
    (some (("File updated. Added missing </IDENTITY_COLUMN> tag.").data)) (by rfl)

/-! ### Claim C5 -/

/-- C5, reorder is a no-op when orders match: whenever the sequence of
normalized column names read from the metadata column list equals the
sequence extracted from the DDL, `reorder_sxml_columns_to_match_ddl`
returns the metadata string unchanged and unflagged, whatever attribute
mismatches exist on those columns. -/
theorem c5_reorder_noop (parse : Chars → Option XNode) (tostring : XNode → Chars)
    (ddl s : Chars) (root cl : XNode)
    (hroot : parse s = some root)
    (hcl : findColList root = some cl)
    (hnames : (namedItems cl).all (fun it => (nameTextOf it).isSome) = true)
    (hord : (namedItems cl).map itemKey = ddlOrderedCols ddl) :
    reorder_sxml_columns_to_match_ddl parse tostring ddl s = (s, false, [], []) := by
  unfold reorder_sxml_columns_to_match_ddl
  by_cases h1 : ddlOrderedCols ddl = []
  · simp only [if_pos h1]
  · have hany : (namedItems cl).any (fun it => (nameTextOf it).isNone) = false := by
      rw [List.any_eq_false]
      intro it hit
      have h2 := List.all_eq_true.mp hnames it hit
      cases hx : nameTextOf it with
      | none => rw [hx] at h2; cases h2
      | some v => simp
    simp only [if_neg h1, hroot, hcl, hany, Bool.false_eq_true, if_false,
      if_pos hord.symm]

def c5ddl : Chars := ("CREATE TABLE \"T\" (\n  \"A\" VARCHAR2(10)\n)").data

def c5s : Chars :=
  ("<TABLE xmlns=\"http://xmlns.oracle.com/ku\"><RELATIONAL_TABLE><COL_LIST><COL_LIST_ITEM><NAME>A</NAME><DATATYPE>DATE</DATATYPE></COL_LIST_ITEM></COL_LIST></RELATIONAL_TABLE></TABLE>").data

def xnullNode : XNode := XNode.elem [] [] none [] none

def c5root : XNode := (parseXml c5s).getD xnullNode

def c5cl : XNode := (findColList c5root).getD xnullNode

set_option maxRecDepth 8000 in
theorem c5_witness :
    reorder_sxml_columns_to_match_ddl parseXml serializeElem c5ddl c5s = (c5s, false, [], []) ∧
    (compareCols parseXml c5ddl c5s).map (fun c => c.mismatches.length) = some 1 :=
  ⟨c5_reorder_noop parseXml serializeElem c5ddl c5s c5root c5cl (by rfl) (by rfl)
    (by rfl) (by rfl), by rfl⟩

/-! ### Claim C8 -/

theorem idBlockAt_shape {s blk : Chars} (h : idBlockAt s = some blk) :
    ∃ w mid, w.all isWs = true ∧
      blk = ("<COL_LIST_ITEM>").data ++ w ++ ("<NAME>ID</NAME>").data ++ mid := by
  unfold idBlockAt at h
  split at h
  · dsimp only at h
    split at h
    · split at h
      next mid hm =>
        cases h
        refine ⟨_, mid, ?_, rfl⟩
        rw [List.all_eq_true]
        intro c hc
        exact List.mem_takeWhile_imp hc
      next => cases h
    · cases h
  · cases h

theorem searchIdBlock_shape : ∀ s blk : Chars, searchIdBlock s = some blk →
    ∃ w mid, w.all isWs = true ∧
      blk = ("<COL_LIST_ITEM>").data ++ w ++ ("<NAME>ID</NAME>").data ++ mid := by
  intro s
  induction s with
  | nil => intro blk h; cases h
  | cons c r ih =>
    intro blk h
    simp only [searchIdBlock] at h
    cases hb : idBlockAt (c :: r) with
    | some g =>
      rw [hb] at h
      cases h
      exact idBlockAt_shape hb
    | none =>
      rw [hb] at h
      exact ih blk h

theorem nn_detail_mem {d : DdlAttrs} {sx : SxmlAttrs} (h : d.not_null ≠ sx.not_null) :
    (("NOT NULL mismatch: DDL='").data ++ pyBool d.not_null ++ ("', SXML='").data ++
      pyBool sx.not_null ++ ("'").data) ∈ mkDetails d sx := by
  unfold mkDetails
  rw [if_pos h]
  simp [List.mem_append]

/-- C8, narrowness of the not-null fixup, amended.  (1) The fixup either
does nothing or rewrites exactly the occurrences of the matched ID block,
splicing one `<NOT_NULL/>` marker into it, and only when that block holds
an identity generator and no existing marker; (2) every genuine not-null
attribute mismatch on the column named ID passes the pipeline's gate
(`isIdNotNullMismatch`); (3) only a mismatch record of the column named
ID can pass the gate; (4) the block the fixup rewrites is always the
column item named ID.  The gate tests for the substring
"NOT NULL mismatch" in the joined detail strings, so it is strictly wider
than "has a not-null attribute mismatch": `c8_counterexample` makes it
fire — and insert a marker — through a type-mismatch detail alone. -/
theorem c8_amended :
    (∀ s, fix_identity_not_null s = none ∨
      ∃ blk, searchIdBlock s = some blk ∧
        containsSub blk (("<NOT_NULL/>").data) = false ∧
        containsSub blk (("<IDENTITY_COLUMN>").data) = true ∧
        fix_identity_not_null s = some
          (replaceAllSub s blk
            (blk.take (notNullInsertionPoint blk) ++ (("\n        <NOT_NULL/>").data) ++
              blk.drop (notNullInsertionPoint blk)),
           ("Added missing NOT NULL tag to ID column.").data)) ∧
    (∀ (d : DdlAttrs) (sx : SxmlAttrs), d.not_null ≠ sx.not_null →
      isIdNotNullMismatch { column := ("ID").data, details := mkDetails d sx } = true) ∧
    (∀ m : Mismatch, isIdNotNullMismatch m = true → m.column = ("ID").data) ∧
    (∀ s blk : Chars, searchIdBlock s = some blk →
      ∃ w mid, w.all isWs = true ∧
        blk = ("<COL_LIST_ITEM>").data ++ w ++ ("<NAME>ID</NAME>").data ++ mid) := by
  refine ⟨?_, ?_, ?_, searchIdBlock_shape⟩
  · intro s
    cases hsb : searchIdBlock s with
    | none =>
      left
      unfold fix_identity_not_null
      rw [hsb]
    | some blk =>
      by_cases hcond : containsSub blk (("<NOT_NULL/>").data) = false ∧
          containsSub blk (("<IDENTITY_COLUMN>").data) = true
      · right
        refine ⟨blk, rfl, hcond.1, hcond.2, ?_⟩
        unfold fix_identity_not_null
        rw [hsb]
        dsimp only
        rw [if_pos hcond]
      · left
        unfold fix_identity_not_null
        rw [hsb]
        dsimp only
        rw [if_neg hcond]
  · intro d sx h
    unfold isIdNotNullMismatch
    rw [Bool.and_eq_true]
    constructor
    · rfl
    · refine containsSub_join_of_mem (nn_detail_mem h) ?_
      exact isPrefixOf_append_mono _ (isPrefixOf_append_mono _ (isPrefixOf_append_mono _
        (isPrefixOf_append_mono _ (by decide))))
  · intro m h
    unfold isIdNotNullMismatch at h
    rw [Bool.and_eq_true] at h
    exact eq_of_beq h.1

def c8ddl : Chars := ("CREATE TABLE \"T\" (\n  \"ID\" DATE\n)").data

def c8meta : Chars :=
  ("<TABLE xmlns=\"http://xmlns.oracle.com/ku\"><RELATIONAL_TABLE><COL_LIST><COL_LIST_ITEM><NAME>ID</NAME><DATATYPE>NOT NULL mismatch</DATATYPE><IDENTITY_COLUMN><START_WITH>1</START_WITH></IDENTITY_COLUMN></COL_LIST_ITEM></COL_LIST></RELATIONAL_TABLE></TABLE>").data

def c8res : ReconcileResult :=
  (reconcile parseXml serializeElem c8ddl c8meta false).getD
    { corrected := [], fixes := [], residualInDdl := [], residualInSxml := [],
      residualMismatches := [], residualParseFailed := false, beforeReorder := [] }

set_option maxRecDepth 40000 in
/-- C8, counterexample: on this DDL/metadata pair the DDL and the metadata
agree that ID is nullable (no genuine not-null mismatch; the only reported
mismatch is the type mismatch), yet the pass applies the not-null fixup —
its gate matches the substring "NOT NULL mismatch" inside the type-mismatch
detail, because the metadata's DATATYPE text is the string
"NOT NULL mismatch" — and force-inserts a `<NOT_NULL/>` marker, refuting
"only when that column is reported with a not-null attribute mismatch". -/
theorem c8_counterexample :
    (compareCols parseXml c8ddl c8meta).map
        (fun c => c.mismatches.map (fun m => (m.column, m.details))) =
      some [((("ID").data),
             [("Type mismatch: DDL='DATE', SXML='NOT NULL mismatch'").data])] ∧
    (ddlColsOf c8ddl).map (fun d => d.map (fun p => (p.1, p.2.not_null))) =
      some [((("ID").data), false)] ∧
    (parseXml c8meta).map (fun root => (sxmlColsOf root).map (fun p => (p.1, p.2.not_null))) =
      some [((("ID").data), false)] ∧
    reconcile parseXml serializeElem c8ddl c8meta false = some c8res ∧
    c8res.fixes = [Fix.idNotNull] ∧
    containsSub c8res.corrected (("<NOT_NULL/>").data) = true := by
  refine ⟨rfl, rfl, rfl, rfl, rfl, rfl⟩

def c8dEx : DdlAttrs :=
  { not_null := true, type? := none, length? := none, precision? := none, scale? := none }

def c8sxEx : SxmlAttrs :=
  { type := [], length? := none, precision? := none, scale? := none, not_null := false }

def c8blkEx : Chars :=
  ("<COL_LIST_ITEM><NAME>ID</NAME><DATATYPE>NOT NULL mismatch</DATATYPE><IDENTITY_COLUMN><START_WITH>1</START_WITH></IDENTITY_COLUMN>").data

set_option maxRecDepth 8000 in
theorem c8_amended_witness :
    (fix_identity_not_null (("<a/>").data) = none ∨
      ∃ blk, searchIdBlock (("<a/>").data) = some blk ∧
        containsSub blk (("<NOT_NULL/>").data) = false ∧
        containsSub blk (("<IDENTITY_COLUMN>").data) = true ∧
        fix_identity_not_null (("<a/>").data) = some
          (replaceAllSub (("<a/>").data) blk
            (blk.take (notNullInsertionPoint blk) ++ (("\n        <NOT_NULL/>").data) ++
              blk.drop (notNullInsertionPoint blk)),
           ("Added missing NOT NULL tag to ID column.").data)) ∧
    isIdNotNullMismatch { column := ("ID").data, details := mkDetails c8dEx c8sxEx } = true ∧
    ({ column := ("ID").data, details := [("NOT NULL mismatch").data] } : Mismatch).column =
      ("ID").data ∧
    (∃ w mid, w.all isWs = true ∧
      c8blkEx = ("<COL_LIST_ITEM>").data ++ w ++ ("<NAME>ID</NAME>").data ++ mid) :=
  ⟨c8_amended.1 (("<a/>").data),
   c8_amended.2.1 c8dEx c8sxEx (by decide),
   c8_amended.2.2.1 { column := ("ID").data, details := [("NOT NULL mismatch").data] } (by rfl),
   c8_amended.2.2.2 c8meta c8blkEx (by rfl)⟩

/-! ### Claim C3 -/

def c3ddl : Chars := ("CREATE TABLE \"T\" (\n  \"AMOUNT\" NUMBER(5)\n)").data

def c3meta : Chars :=
  ("<TABLE xmlns=\"http://xmlns.oracle.com/ku\"><RELATIONAL_TABLE><COL_LIST></COL_LIST></RELATIONAL_TABLE></TABLE>").data

def c3res : ReconcileResult :=
  (reconcile parseXml serializeElem c3ddl c3meta true).getD
    { corrected := [], fixes := [], residualInDdl := [], residualInSxml := [],
      residualMismatches := [], residualParseFailed := true, beforeReorder := [] }

set_option maxRecDepth 40000 in
/-- C3: the synthesized-column round trip is NOT loss-free for the
single-argument `NUMBER(p)` form.  The DDL extraction of `NUMBER(5)`
yields precision 5 and an explicit scale 0 (`parseColDef`), but the item
synthesis (`synthColItem`) only emits `<PRECISION>`/`<SCALE>` when the
two-argument `NUMBER(p,s)` regex matches (`searchNumberPS`), which fails
on `NUMBER(5)`; re-extracting the serialized item therefore loses both
fields, and the full pass ends with a permanent precision/scale residual
mismatch on the synthesized column. -/
theorem c3_number_p_lost :
    parseColDef (("NUMBER(5)").data) = some
      { not_null := false, type? := some (("NUMBER").data), length? := none,
        precision? := some (("5").data), scale? := some (("0").data) } ∧
    searchNumberPS (upper (("NUMBER(5)").data)) = none ∧
    reconcile parseXml serializeElem c3ddl c3meta true = some c3res ∧
    c3res.fixes = [Fix.addMissing [("AMOUNT").data]] ∧
    c3res.residualMismatches = [{ column := ("AMOUNT").data, details :=
      [("Precision mismatch: DDL='5', SXML='None'").data,
       ("Scale mismatch: DDL='0', SXML='None'").data] }] :=
  ⟨rfl, rfl, rfl, rfl, rfl⟩

/-! ### Claim C2 -/

instance optionElimTrueDec {α : Type} (o : Option α) (p : α → Prop) [DecidablePred p] :
    Decidable (o.elim True p) :=
  match o with
  | none => isTrue trivial
  | some a => decidable_of_iff (p a) Iff.rfl

/-- C2, no-deletion invariant: a column item of the metadata column list
whose normalized name is absent from both DDL extractions (the reorder
function's ordered name list and the comparison's attribute dict) is kept
by the reordering rebuild — it lands in the unmapped tail of
`rebuildItems` — and is reported in the comparison's metadata-only set;
and the missing-column synthesis only ever splices new text into the
string, never removing anything. -/
theorem c2_no_deletion
    (parse : Chars → Option XNode) (ddl s : Chars) (root cl it : XNode) (c : CompareRes)
    (hroot : parse s = some root)
    (hcl : findColList root = some cl)
    (hit : it ∈ namedItems cl)
    (hnodup : ((namedItems cl).map itemKey).Nodup)
    (hkey : itemKey it ∉ ddlOrderedCols ddl)
    (hc : compareCols parse ddl s = some c)
    (hsx : itemKey it ∈ (sxmlColsOf root).map Prod.fst)
    (hdd : (ddlColsOf ddl).elim True (fun dcols => itemKey it ∉ dcols.map Prod.fst)) :
    it ∈ rebuildItems (ddlOrderedCols ddl)
        ((namedItems cl).foldl (fun acc i => upsert (itemKey i) i acc) []) ∧
    itemKey it ∈ c.inSxml ∧
    ∀ missing, add_missing_columns_to_sxml missing ddl s = s ∨
      ∃ i ins, add_missing_columns_to_sxml missing ddl s = s.take i ++ ins ++ s.drop i := by
  refine ⟨?_, ?_, ?_⟩
  · have hpair := foldl_upsert_mem (namedItems cl) [] hit hnodup
    unfold rebuildItems
    refine List.mem_append_right _ ?_
    refine List.mem_map.mpr ⟨(itemKey it, it), ?_, rfl⟩
    refine List.mem_filter.mpr ⟨hpair, ?_⟩
    simp only [Bool.not_eq_eq_eq_not, Bool.not_true]
    rw [List.contains_eq_any_beq, List.any_eq_false]
    intro k hk hke
    exact hkey (by rw [eq_of_beq hke]; exact hk)
  · unfold compareCols at hc
    cases hd : ddlColsOf ddl with
    | none => rw [hd] at hc; cases hc
    | some dcols =>
      rw [hd] at hc
      rw [hroot] at hc
      dsimp only at hc
      cases hc
      rw [hd] at hdd
      simp only [Option.elim] at hdd
      refine List.mem_filter.mpr ⟨hsx, ?_⟩
      simp only [Bool.not_eq_eq_eq_not, Bool.not_true]
      rw [List.contains_eq_any_beq, List.any_eq_false]
      intro k hk hke
      exact hdd (by rw [eq_of_beq hke]; exact hk)
  · intro missing
    unfold add_missing_columns_to_sxml
    cases hb : createColumnsBlock ddl with
    | none => exact Or.inl rfl
    | some block =>
      dsimp only
      by_cases hi : missing.filterMap (fun nm =>
          (searchColDefFor nm (block.length + 1) true block).map
            (fun d => synthColItem nm (rstripComma (strip d)))) = []
      · rw [if_pos hi]
        exact Or.inl rfl
      · rw [if_neg hi]
        cases hf : findSub s (("</COL_LIST>").data) with
        | none => exact Or.inl rfl
        | some i => exact Or.inr ⟨i, _, rfl⟩

def c2ddl : Chars := ("CREATE TABLE \"T\" (\n  \"A\" DATE\n)").data

def c2s : Chars :=
  ("<TABLE xmlns=\"http://xmlns.oracle.com/ku\"><RELATIONAL_TABLE><COL_LIST><COL_LIST_ITEM><NAME>A</NAME><DATATYPE>DATE</DATATYPE></COL_LIST_ITEM><COL_LIST_ITEM><NAME>NOTES</NAME><DATATYPE>VARCHAR2</DATATYPE></COL_LIST_ITEM></COL_LIST></RELATIONAL_TABLE></TABLE>").data

def c2root : XNode := (parseXml c2s).getD xnullNode

def c2cl : XNode := (findColList c2root).getD xnullNode

def c2it : XNode := (namedItems c2cl).getD 1 xnullNode

def c2c : CompareRes :=
  (compareCols parseXml c2ddl c2s).getD
    { inDdl := [], inSxml := [], mismatches := [], parseFailed := true }

set_option maxRecDepth 40000 in
theorem c2_witness :
    (c2it ∈ rebuildItems (ddlOrderedCols c2ddl)
        ((namedItems c2cl).foldl (fun acc i => upsert (itemKey i) i acc) []) ∧
      itemKey c2it ∈ c2c.inSxml ∧
      ∀ missing, add_missing_columns_to_sxml missing c2ddl c2s = c2s ∨
        ∃ i ins, add_missing_columns_to_sxml missing c2ddl c2s =
          c2s.take i ++ ins ++ c2s.drop i) ∧
    itemKey c2it = ("NOTES").data ∧
    c2c.inSxml = [("NOTES").data] :=
  ⟨c2_no_deletion parseXml c2ddl c2s c2root c2cl c2it c2c (by rfl) (by rfl) (by decide)
    (by decide) (by decide) (by rfl) (by decide) (by decide), by rfl, by rfl⟩

/-! ### Claim C1 -/

def c1ddl : Chars := ("CREATE TABLE \"T\" (\n  \"B\" DATE,\n  \"A\" DATE\n)").data

def c1meta : Chars :=
  ("<TABLE xmlns=\"http://xmlns.oracle.com/ku\"><RELATIONAL_TABLE><COL_LIST><COL_LIST_ITEM><NAME>A</NAME><DATATYPE>DATE</DATATYPE><IDENTITY_COLUMN><START_WITH>1</START_WITH></IDENTITY_COLUMN></COL_LIST_ITEM><COL_LIST_ITEM><NAME>B</NAME><DATATYPE>DATE</DATATYPE><IDENTITY_COLUMN><START_WITH>7</START_WITH></IDENTITY_COLUMN></COL_LIST_ITEM></COL_LIST></RELATIONAL_TABLE></TABLE>").data

def c1out1 : Chars :=
  ("<?xml version=\"1.0\" ?>\n<TABLE xmlns=\"http://xmlns.oracle.com/ku\"><RELATIONAL_TABLE><COL_LIST><COL_LIST_ITEM><NAME>B</NAME><DATATYPE>DATE</DATATYPE><IDENTITY_COLUMN><START_WITH>7</START_WITH></IDENTITY_COLUMN></COL_LIST_ITEM><COL_LIST_ITEM><NAME>A</NAME><DATATYPE>DATE</DATATYPE><IDENTITY_COLUMN><START_WITH>1</START_WITH></IDENTITY_COLUMN></COL_LIST_ITEM></COL_LIST></RELATIONAL_TABLE></TABLE>").data

def c1out2 : Chars :=
  ("<?xml version=\"1.0\" ?>\n<TABLE xmlns=\"http://xmlns.oracle.com/ku\"><RELATIONAL_TABLE><COL_LIST><COL_LIST_ITEM><NAME>B</NAME><DATATYPE>DATE</DATATYPE><IDENTITY_COLUMN><START_WITH>1</START_WITH></IDENTITY_COLUMN></COL_LIST_ITEM><COL_LIST_ITEM><NAME>A</NAME><DATATYPE>DATE</DATATYPE><IDENTITY_COLUMN><START_WITH>1</START_WITH></IDENTITY_COLUMN></COL_LIST_ITEM></COL_LIST></RELATIONAL_TABLE></TABLE>").data

set_option maxRecDepth 100000 in
set_option maxHeartbeats 4000000 in
/-- C1, counterexample to idempotence: the first pass over this pair
applies exactly one fix — it reorders the two columns to the DDL order
B, A — and ends with zero residual discrepancies (the leftmost generator
has start value 1, so the reset step is quiet); but the reordering moves
the generator with start value 7 to the front, so a second pass over the
corrected output applies a further reset fix.  The pass is not idempotent
even from a zero-residual state. -/
theorem c1_counterexample :
    reconcile parseXml serializeElem c1ddl c1meta true = some
      { corrected := c1out1,
        fixes := [Fix.reorderFix [("A").data, ("B").data] [("B").data, ("A").data]],
        residualInDdl := [], residualInSxml := [], residualMismatches := [],
        residualParseFailed := false, beforeReorder := c1meta } ∧
    reconcile parseXml serializeElem c1ddl c1out1 true = some
      { corrected := c1out2, fixes := [Fix.resetStart (("7").data)],
        residualInDdl := [], residualInSxml := [], residualMismatches := [],
        residualParseFailed := false, beforeReorder := c1out2 } :=
  ⟨rfl, rfl⟩

/-- C1, amended idempotence: a second pass applies zero fixes and reports
zero residual discrepancies provided the corrected string (i) compares
clean against the DDL (all four residual components empty — the claim's
own premise), (ii) has no `<START_WITH>` generator match or a leftmost
one with value 1, and (iii) does not trigger the reorder step.  The
unamended claim is false: (ii) can fail because the reset step
normalizes only the leftmost generator value and the reorder step can
move a different non-1 generator into the leftmost position
(`c1_counterexample`); (iii) can fail because the reorder and comparison
steps extract DDL column names with different regexes, so a clean
comparison does not force matching orders. -/
theorem c1_amended (parse : Chars → Option XNode) (tostring : XNode → Chars)
    (ddl s : Chars) (flag : Bool) (c : CompareRes)
    (hc : compareCols parse ddl s = some c)
    (h1 : c.inDdl = []) (h2 : c.inSxml = []) (h3 : c.mismatches = [])
    (h4 : c.parseFailed = false)
    (hsw : searchStartWith s = none ∨ searchStartWith s = some (("1").data))
    (hreo : (reorder_sxml_columns_to_match_ddl parse tostring ddl s).2.1 = false) :
    reconcile parse tostring ddl s flag =
      some { corrected := s, fixes := [], residualInDdl := [], residualInSxml := [],
             residualMismatches := [], residualParseFailed := false, beforeReorder := s } := by
  obtain ⟨root, hroot⟩ := compareCols_parse_some hc h4
  have hreset := reset_noop_of_sw hsw
  have hreorder := reorder_flag_false hreo
  simp only [reconcile, hroot, Option.isSome_some, if_true, hc, h1, h3, List.any_nil,
    Bool.false_eq_true, if_false, hreset, hreorder, ite_self]
  rw [h2, h4]

def c1wddl : Chars := ("CREATE TABLE \"W\" (\n  \"A\" DATE\n)").data

def c1ws : Chars :=
  ("<TABLE xmlns=\"http://xmlns.oracle.com/ku\"><RELATIONAL_TABLE><COL_LIST><COL_LIST_ITEM><NAME>A</NAME><DATATYPE>DATE</DATATYPE></COL_LIST_ITEM></COL_LIST></RELATIONAL_TABLE></TABLE>").data

set_option maxRecDepth 40000 in
theorem c1_witness :
    reconcile parseXml serializeElem c1wddl c1ws true =
      some { corrected := c1ws, fixes := [], residualInDdl := [], residualInSxml := [],
             residualMismatches := [], residualParseFailed := false, beforeReorder := c1ws } :=
  c1_amended parseXml serializeElem c1wddl c1ws true
    { inDdl := [], inSxml := [], mismatches := [], parseFailed := false }
    (by rfl) rfl rfl rfl rfl (Or.inl (by rfl)) (by rfl)

end SxmlRec
